import Mathlib

/-!
Verification development for the war3structs repository: a shallow embedding
of the cameras-file binary codec (src/war3structs/CamerasFile.py) and of the
JASS parse-tree mapping layer (src/war3structs/plaintext/jass_mapping.py),
together with theorems settling the specification's claims.

Modelling conventions:
* Bytes are natural numbers; byte buffers are `List Nat`.
* The shared primitives `Integer`, `Float`, `String` live in
  war3structs/common.py, which is not part of the sources given; they are
  modelled from the spec (section 4.1): a 4-byte little-endian signed
  integer, a 4-byte little-endian IEEE-754 float, and a null-terminated
  byte string written with its terminator appended.  Since the codec never
  performs float arithmetic, a float value is represented by its 32-bit
  pattern.
* Fallible operations (construct's parse/build errors, Python
  IndexError/AttributeError faults) return `Option`; `none` is a fault.
-/

/-! ## Camera file codec (src/war3structs/CamerasFile.py) -/

/-- Modelled from the spec: war3structs/common.py `Integer` (missing from
the given sources) is a 4-byte little-endian signed integer; building an
out-of-range value fails. -/
def buildInt32 (i : Int) : Option (List Nat) :=
  if -2147483648 ≤ i ∧ i < 2147483648 then
    some [((i % 4294967296).toNat) % 256,
          ((i % 4294967296).toNat) / 256 % 256,
          ((i % 4294967296).toNat) / 65536 % 256,
          ((i % 4294967296).toNat) / 16777216 % 256]
  else none

/-- Little-endian signed reading of four bytes. -/
def int32OfBytes (b0 b1 b2 b3 : Nat) : Int :=
  if b0 + 256 * b1 + 65536 * b2 + 16777216 * b3 < 2147483648 then
    ((b0 + 256 * b1 + 65536 * b2 + 16777216 * b3 : Nat) : Int)
  else ((b0 + 256 * b1 + 65536 * b2 + 16777216 * b3 : Nat) : Int) - 4294967296

/-- Modelled from the spec: parsing war3structs/common.py `Integer`; fails
when fewer than four bytes remain. -/
def parseInt32 : List Nat → Option (Int × List Nat)
  | b0 :: b1 :: b2 :: b3 :: rest => some (int32OfBytes b0 b1 b2 b3, rest)
  | _ => none

/-- Modelled from the spec: war3structs/common.py `Float` is a 4-byte
little-endian IEEE-754 float; the codec does no float arithmetic, so the
value is represented by its 32-bit pattern. -/
def buildFloat (w : Nat) : Option (List Nat) :=
  if w < 4294967296 then
    some [w % 256, w / 256 % 256, w / 65536 % 256, w / 16777216 % 256]
  else none

/-- Modelled from the spec: parsing war3structs/common.py `Float`. -/
def parseFloat : List Nat → Option (Nat × List Nat)
  | b0 :: b1 :: b2 :: b3 :: rest => some (b0 + 256 * b1 + 65536 * b2 + 16777216 * b3, rest)
  | _ => none

/-- Modelled from the spec: war3structs/common.py `String` is a
null-terminated byte string, written with its terminator appended. -/
def buildString (s : List Nat) : List Nat := s ++ [0]

/-- Modelled from the spec: parsing war3structs/common.py `String`: read
bytes until a terminator; fail when the terminator is never found. -/
def parseString : List Nat → Option (List Nat × List Nat)
  | [] => none
  | b :: rest =>
    if b = 0 then some ([], rest)
    else do
      let (s, r) ← parseString rest
      return (b :: s, r)

/-- The in-memory value of one `Camera` record (CamerasFile.py, lines
11-23): ten float fields followed by a name. -/
structure Camera where
  target_x : Nat
  target_y : Nat
  offset_z : Nat
  rotation : Nat
  angle_of_attack : Nat
  distance : Nat
  roll : Nat
  field_of_view : Nat
  far_clipping : Nat
  unknown : Nat
  name : List Nat
deriving DecidableEq

/-- The in-memory value of the `CamerasFile` struct (CamerasFile.py, lines
25-29). -/
structure CamerasFile where
  version : Int
  cameras_count : Int
  cameras : List Camera
deriving DecidableEq

/-- Building one `Camera` record: the ten floats in declaration order, then
the name with its terminator. -/
def buildCamera (c : Camera) : Option (List Nat) := do
  let b0 ← buildFloat c.target_x
  let b1 ← buildFloat c.target_y
  let b2 ← buildFloat c.offset_z
  let b3 ← buildFloat c.rotation
  let b4 ← buildFloat c.angle_of_attack
  let b5 ← buildFloat c.distance
  let b6 ← buildFloat c.roll
  let b7 ← buildFloat c.field_of_view
  let b8 ← buildFloat c.far_clipping
  let b9 ← buildFloat c.unknown
  return b0 ++ b1 ++ b2 ++ b3 ++ b4 ++ b5 ++ b6 ++ b7 ++ b8 ++ b9 ++ buildString c.name

/-- Parsing one `Camera` record in field order. -/
def parseCamera (bs : List Nat) : Option (Camera × List Nat) := do
  let (tx, r0) ← parseFloat bs
  let (ty, r1) ← parseFloat r0
  let (oz, r2) ← parseFloat r1
  let (rot, r3) ← parseFloat r2
  let (aoa, r4) ← parseFloat r3
  let (dist, r5) ← parseFloat r4
  let (rl, r6) ← parseFloat r5
  let (fov, r7) ← parseFloat r6
  let (fc, r8) ← parseFloat r7
  let (unk, r9) ← parseFloat r8
  let (nm, r10) ← parseString r9
  return (⟨tx, ty, oz, rot, aoa, dist, rl, fov, fc, unk, nm⟩, r10)

/-- Parsing `n` consecutive `Camera` records (construct's
`Array(this.cameras_count, Camera)` on the parse side). -/
def parseCameras : Nat → List Nat → Option (List Camera × List Nat)
  | 0, bs => some ([], bs)
  | n + 1, bs => do
    let (c, r) ← parseCamera bs
    let (cs, r2) ← parseCameras n r
    return (c :: cs, r2)

/-- Building `n` consecutive `Camera` records (construct's `Array` build
loop). -/
def buildCameras : List Camera → Option (List (List Nat))
  | [] => some []
  | c :: cs => do
    let b ← buildCamera c
    let bs ← buildCameras cs
    return (b :: bs)

/-- Building the `CamerasFile` struct: version and stored cameras_count are
written as given; construct's `Array(this.cameras_count, Camera)` raises a
RangeError when the stored count is negative or differs from the number of
records supplied. -/
def buildCamerasFile (f : CamerasFile) : Option (List Nat) := do
  let vb ← buildInt32 f.version
  let cb ← buildInt32 f.cameras_count
  if f.cameras_count < 0 then none
  else if (f.cameras.length : Int) = f.cameras_count then do
    let cams ← buildCameras f.cameras
    return vb ++ cb ++ cams.flatten
  else none

/-- Parsing the `CamerasFile` struct: the two header integers, then exactly
cameras_count records; construct's `Array` raises a RangeError on a
negative count.  Trailing bytes are ignored, as construct's `parse` does. -/
def parseCamerasFile (bs : List Nat) : Option CamerasFile := do
  let (v, r0) ← parseInt32 bs
  let (c, r1) ← parseInt32 r0
  if c < 0 then none
  else do
    let (cams, _) ← parseCameras c.toNat r1
    return ⟨v, c, cams⟩

/-! ## JASS parse-tree mapping layer
(src/war3structs/plaintext/jass_mapping.py)

A lark parse-tree node is either a leaf `Token` carrying a kind and a
literal, or an interior `Tree` carrying a rule name and children.  The
mapping layer specializes six rule kinds into typed-view subclasses; a
node's effective Python class is represented here by a `NodeKind` tag. -/

/-- The Python class of a rule node: `Tree` itself, or one of the six
typed-view subclasses defined in jass_mapping.py. -/
inductive NodeKind
  | base
  | scriptK
  | typeK
  | nativeK
  | globalK
  | localK
  | funcK
deriving DecidableEq

/-- A parse-tree node: a lark `Token` (kind and literal text) or a rule
node (Python class tag, rule name `data`, ordered children). -/
inductive Node
  | token (ty : String) (val : String)
  | rule (kind : NodeKind) (data : String) (children : List Node)

instance : Inhabited Node := ⟨.token "" ""⟩

mutual

/-- Structural equality test on nodes. -/
def Node.beq : Node → Node → Bool
  | .token t v, .token t2 v2 => t == t2 && v == v2
  | .rule k d cs, .rule k2 d2 cs2 => k == k2 && d == d2 && Node.beqList cs cs2
  | _, _ => false

/-- Structural equality test on lists of nodes. -/
def Node.beqList : List Node → List Node → Bool
  | [], [] => true
  | x :: xs, y :: ys => Node.beq x y && Node.beqList xs ys
  | _, _ => false

end

mutual

/-- The equality test decides equality of nodes. -/
theorem Node.beq_iff : ∀ a b : Node, (Node.beq a b = true) ↔ a = b
  | .token _ _, .token _ _ => by simp [Node.beq]
  | .token _ _, .rule _ _ _ => by simp [Node.beq]
  | .rule _ _ _, .token _ _ => by simp [Node.beq]
  | .rule _ _ cs, .rule _ _ cs2 => by
    simp [Node.beq, Node.beqList_iff cs cs2, and_assoc]

/-- The equality test decides equality of node lists. -/
theorem Node.beqList_iff : ∀ a b : List Node, (Node.beqList a b = true) ↔ a = b
  | [], [] => by simp [Node.beqList]
  | [], _ :: _ => by simp [Node.beqList]
  | _ :: _, [] => by simp [Node.beqList]
  | x :: xs, y :: ys => by
    simp [Node.beqList, Node.beq_iff x y, Node.beqList_iff xs ys]

end

instance : DecidableEq Node := fun a b => decidable_of_iff _ (Node.beq_iff a b)

/-- Python `node.type`: defined on `Token` only; an `AttributeError` fault
on a rule node. -/
def Node.tokenType : Node → Option String
  | .token ty _ => some ty
  | .rule _ _ _ => none

/-- Python `self.children` read: defined on rule nodes; a fault on tokens
(a lark `Token` is a plain string). -/
def Node.getChildren : Node → Option (List Node)
  | .token _ _ => none
  | .rule _ _ cs => some cs

/-- The children of a rule node, `[]` for a token (spec-side projection
used in theorem statements only). -/
def Node.kids : Node → List Node
  | .token _ _ => []
  | .rule _ _ cs => cs

/-- Replacing `self.children` (in-place assignment in Python becomes
rebuilding the node here); assigning to a token is a fault upstream, so the
token branch is never reached by the operations below. -/
def Node.withChildren : Node → List Node → Node
  | .token t v, _ => .token t v
  | .rule k d _, cs => .rule k d cs

/-- The predicate of `Tree.find_all` (jass_mapping.py, line 39): a token
matches by its kind, a rule node by its rule name. -/
def matchesKind (t : String) : Node → Bool
  | .token ty _ => ty == t
  | .rule _ d _ => d == t

/-- `Tree.find_all` (line 38-39): the direct children matching
`type_or_rule`; calling it on a token is a fault. -/
def findAll (t : String) (n : Node) : Option (List Node) :=
  match n with
  | .token _ _ => none
  | .rule _ _ cs => some (cs.filter (matchesKind t))

/-- Loop body of `Tree.find_token_pair` (lines 31-36): scan the children
left to right for the first token of the requested kind; on a hit return
the pair of that token and the child `offset` places further (an
IndexError fault when that child does not exist); `some none` is Python's
`None` result when no such token exists. -/
def ftpAux (t : String) (offset : Nat) (all : List Node) : Nat → List Node → Option (Option (Node × Node))
  | _, [] => some none
  | i, n :: rest =>
    match n with
    | .token ty v =>
      if ty == t then
        match all[i + offset]? with
        | some m => some (some (Node.token ty v, m))
        | none => none
      else ftpAux t offset all (i + 1) rest
    | .rule _ _ _ => ftpAux t offset all (i + 1) rest

/-- `Tree.find_token_pair` on a children list (all uses in the source pass
the default offset 1). -/
def findTokenPair (t : String) (offset : Nat) (cs : List Node) : Option (Option (Node × Node)) :=
  ftpAux t offset cs 0 cs

/-! ### WithFuncDeclr (lines 45-98) -/

/-- `WithFuncDeclr.is_constant` (lines 55-57): `self.children[0].type ==
'CONSTANT'`; faults when there is no first child or it is a rule node. -/
def funcIsConstant (n : Node) : Option Bool := do
  let cs ← n.getChildren
  let c0 ← cs[0]?
  let t ← c0.tokenType
  return t == "CONSTANT"

/-- `WithFuncDeclr._get_declr` (lines 48-49): the signature node, at index
1 normally and at index 2 when the declaration is constant. -/
def getDeclr (n : Node) : Option Node := do
  let c ← funcIsConstant n
  let cs ← n.getChildren
  if c then cs[2]? else cs[1]?

/-- `WithFuncDeclr.id` (lines 51-53). -/
def funcId (n : Node) : Option Node := do
  let declr ← getDeclr n
  let dcs ← declr.getChildren
  dcs[0]?

/-- The `for i in range(2, args_stop, 3)` loop of the takes getter (lines
68-72); indices stay in bounds whenever `i < stop` and
`stop = length - 2`, so the defaulting access never defaults there. -/
def takesLoop (cs : List Node) (i stop : Nat) : List (Node × Node) :=
  if i < stop then (cs.getD i default, cs.getD (i + 1) default) :: takesLoop cs (i + 3) stop
  else []
termination_by stop - i

/-- `WithFuncDeclr.takes` getter (lines 59-72): `[]` for the
"takes nothing" shape (`args_stop == 3`), otherwise consecutive
(type, name) pairs starting at index 2, three children per pair. -/
def takesGet (n : Node) : Option (List (Node × Node)) := do
  let declr ← getDeclr n
  let dcs ← declr.getChildren
  let stop := dcs.length - 2
  if stop = 3 then return []
  else return takesLoop dcs 2 stop

/-- `Token('COMMA', ',')`. -/
def commaTok : Node := .token "COMMA" ","

/-- `Token('NOTHING', 'nothing')`. -/
def nothingTok : Node := .token "NOTHING" "nothing"

/-- `Token('NEWLINE', '\n')`. -/
def nlTok : Node := .token "NEWLINE" "\n"

/-- The new children the takes setter assigns to the signature node (lines
77-88): the first two children, then a single `nothing` token when the
list is empty or each pair's two tokens followed by a comma with the final
comma popped, then the original children from `args_stop` onward. -/
def takesNew (dcs : List Node) (v : List (Node × Node)) : List Node :=
  dcs.take 2
    ++ (if v.length = 0 then [nothingTok]
        else (v.flatMap (fun a => [a.1, a.2, commaTok])).dropLast)
    ++ dcs.drop (dcs.length - 2)

/-- `WithFuncDeclr.takes` setter (lines 74-89): rebuild the signature
node's children; the mutation of the shared child object becomes replacing
the child at the signature index. -/
def takesSet (n : Node) (v : List (Node × Node)) : Option Node := do
  let c ← funcIsConstant n
  let cs ← n.getChildren
  let idx := if c then 2 else 1
  let declr ← cs[idx]?
  let dcs ← declr.getChildren
  return n.withChildren (cs.set idx (declr.withChildren (takesNew dcs v)))

/-- `WithFuncDeclr.returns` (lines 91-98): the last child of the signature
node, with a `nothing` token mapped to Python `None` (`some none`). -/
def funcReturns (n : Node) : Option (Option Node) := do
  let declr ← getDeclr n
  let dcs ← declr.getChildren
  let r ← dcs[dcs.length - 1]?
  let t ← r.tokenType
  if t == "NOTHING" then return none else return (some r)

/-! ### WithVarDeclr (lines 101-115) and the variable views -/

/-- `WithVarDeclr.is_array` (lines 104-106): `self.children[-2].type ==
'ARRAY'`; Python's `children[-2]` faults when there are fewer than two
children. -/
def varIsArray (n : Node) : Option Bool := do
  let cs ← n.getChildren
  if cs.length < 2 then none
  else do
    let c ← cs[cs.length - 2]?
    let t ← c.tokenType
    return t == "ARRAY"

/-- `WithVarDeclr.value` (lines 108-115): token-pair lookup for `EQUALS`
with the default offset 1; `some none` is the Python `None` result. -/
def varValue (n : Node) : Option (Option Node) := do
  let cs ← n.getChildren
  let p ← findTokenPair "EQUALS" 1 cs
  match p with
  | none => return none
  | some pair => return (some pair.2)

/-- `GlobalTree.is_constant` (lines 152-154). -/
def globalIsConstant (n : Node) : Option Bool := do
  let cs ← n.getChildren
  let c0 ← cs[0]?
  let t ← c0.tokenType
  return t == "CONSTANT"

/-- `GlobalTree.id` (lines 138-143): index 2 when constant or array,
index 1 otherwise; `or` short-circuits as in Python. -/
def globalId (n : Node) : Option Node := do
  let c ← globalIsConstant n
  let cs ← n.getChildren
  if c then cs[2]?
  else do
    let a ← varIsArray n
    if a then cs[2]? else cs[1]?

/-- `GlobalTree.type` (lines 145-150): index 1 when constant, index 0
otherwise. -/
def globalType (n : Node) : Option Node := do
  let c ← globalIsConstant n
  let cs ← n.getChildren
  if c then cs[1]? else cs[0]?

/-! ### ScriptTree (lines 206-265) -/

/-- The `types + natives` (or `functions`) interleaving of `rebuild_tree`
(lines 210-213 and 223-226): each node followed by a newline token. -/
def nlJoin (l : List Node) : List Node := l.flatMap (fun x => [x, nlTok])

/-- The globals block synthesized by `rebuild_tree` (lines 215-221): note
the source constructs it as `GlobalTree('globals', [])`, i.e. with the
typed-view class for global variable declarations. -/
def gBlock (gl : List Node) : Node :=
  .rule .globalK "globals"
    ([Node.token "GLOBALS" "globals", nlTok] ++ nlJoin gl ++ [Node.token "ENDGLOBALS" "endglobals"])

/-- The children `rebuild_tree` assigns to the root (line 228). -/
def rebuildChildren (ts ns gl fs : List Node) : List Node :=
  nlJoin (ts ++ ns) ++ [gBlock gl] ++ nlJoin fs

/-- `ScriptTree.rebuild_tree` (lines 209-228): replace the root's children
with the canonical emission of the four collections. -/
def rebuildTree (n : Node) (ts ns gl fs : List Node) : Option Node :=
  match n with
  | .token _ _ => none
  | .rule k d _ => some (.rule k d (rebuildChildren ts ns gl fs))

/-- `ScriptTree.types` getter (lines 230-232). -/
def scriptTypes (n : Node) : Option (List Node) := findAll "type_declr" n

/-- `ScriptTree.natives` getter (lines 238-240). -/
def scriptNatives (n : Node) : Option (List Node) := findAll "native_func_declr" n

/-- `ScriptTree.functions` getter (lines 259-261). -/
def scriptFunctions (n : Node) : Option (List Node) := findAll "func" n

/-- The `for declrs in self.find_all` loop of the globals getter: apply
`find_all` to each block in turn. -/
def findAllEach (t : String) : List Node → Option (List (List Node))
  | [] => some []
  | b :: bs => do
    let l ← findAll t b
    let ls ← findAllEach t bs
    return (l :: ls)

/-- `ScriptTree.globals` getter (lines 246-253): for every direct child
matching `globals`, collect its `global_var_declr` children and
concatenate; calling `find_all` on a token child is a fault. -/
def scriptGlobals (n : Node) : Option (List Node) := do
  let blocks ← findAll "globals" n
  let lists ← findAllEach "global_var_declr" blocks
  return lists.flatten

/-- `ScriptTree.types` setter (lines 234-236). -/
def setTypes (n : Node) (v : List Node) : Option Node := do
  let ns ← scriptNatives n
  let gl ← scriptGlobals n
  let fs ← scriptFunctions n
  rebuildTree n v ns gl fs

/-- `ScriptTree.natives` setter (lines 242-244). -/
def setNatives (n : Node) (v : List Node) : Option Node := do
  let ts ← scriptTypes n
  let gl ← scriptGlobals n
  let fs ← scriptFunctions n
  rebuildTree n ts v gl fs

/-- `ScriptTree.globals` setter (lines 255-257). -/
def setGlobals (n : Node) (v : List Node) : Option Node := do
  let ts ← scriptTypes n
  let ns ← scriptNatives n
  let fs ← scriptFunctions n
  rebuildTree n ts ns v fs

/-- `ScriptTree.functions` setter (lines 263-265). -/
def setFunctions (n : Node) (v : List Node) : Option Node := do
  let ts ← scriptTypes n
  let ns ← scriptNatives n
  let gl ← scriptGlobals n
  rebuildTree n ts ns gl v

/-! ### MapperTransformer (lines 268-291) -/

/-- The typed-view class `MapperTransformer` assigns to each rule name:
the six recognized kinds get their view class, every other rule stays a
plain tree. -/
def kindFor (d : String) : NodeKind :=
  if d = "start" then .scriptK
  else if d = "type_declr" then .typeK
  else if d = "native_func_declr" then .nativeK
  else if d = "global_var_declr" then .globalK
  else if d = "local_var_declr" then .localK
  else if d = "func" then .funcK
  else .base

mutual

/-- The bottom-up rewrite pass: lark's `Transformer` rebuilds every rule
node from its transformed children, and `MapperTransformer` replaces the
six recognized rule kinds by their typed views. -/
def mapperTransform : Node → Node
  | .token t v => .token t v
  | .rule _ d cs => .rule (kindFor d) d (mapperTransformList cs)

/-- The rewrite pass on a list of sibling nodes. -/
def mapperTransformList : List Node → List Node
  | [] => []
  | x :: xs => mapperTransform x :: mapperTransformList xs

end

mutual

/-- A tree is view-consistent when the class tag of every rule node is
exactly the one the rewrite pass assigns to its rule name. -/
def viewOK : Node → Bool
  | .token _ _ => true
  | .rule k d cs => k == kindFor d && viewOKList cs

/-- View-consistency of a list of sibling nodes. -/
def viewOKList : List Node → Bool
  | [] => true
  | x :: xs => viewOK x && viewOKList xs

end

/-- A node is a typed-view instance when its Python class is one of the
six view subclasses rather than plain `Tree`. -/
def isTypedView : Node → Bool
  | .token _ _ => false
  | .rule k _ _ => !(k == .base)

/-- The hit test of `find_token_pair`'s loop: a leaf token of the
requested kind. -/
def isTokenOfKind (t : String) : Node → Bool
  | .token ty _ => ty == t
  | .rule _ _ _ => false

/-! ## Concrete sample values used by witnesses and counterexamples -/

/-- A camera whose name contains an interior terminator byte. -/
def camNullName : Camera := ⟨0, 0, 0, 0, 0, 0, 0, 0, 0, 0, [97, 0, 98]⟩

/-- A CamerasFile value holding `camNullName`. -/
def fileNullName : CamerasFile := ⟨0, 1, [camNullName]⟩

/-- A small well-formed CamerasFile value. -/
def fileSmall : CamerasFile := ⟨0, 1, [⟨1, 2, 3, 4, 5, 6, 7, 8, 9, 100, [104, 105]⟩]⟩

/-- An empty CamerasFile value with a consistent count. -/
def fileEmpty : CamerasFile := ⟨0, 0, []⟩

/-- Children of a sample signature node in the "takes nothing" shape. -/
def sigKids : List Node :=
  [Node.token "ID" "foo", Node.token "TAKES" "takes", Node.token "NOTHING" "nothing",
   Node.token "RETURNS" "returns", Node.token "NOTHING" "nothing"]

/-- A sample signature node. -/
def sigSample : Node := .rule .base "func_declr" sigKids

/-- A sample non-constant function node wrapping `sigSample`. -/
def funcSample : Node :=
  .rule .funcK "func"
    [Node.token "FUNCTION" "function", sigSample,
     Node.rule .base "local_var_list" [], Node.rule .base "statements" [],
     Node.token "ENDFUNCTION" "endfunction"]

/-- A sample one-pair parameter list. -/
def takesSampleArgs : List (Node × Node) :=
  [(Node.token "ID" "integer", Node.token "ID" "x")]

/-- The function node after setting the sample parameter list. -/
def funcSampleSet : Node := (takesSet funcSample takesSampleArgs).getD default

/-- A sample global declaration: `constant integer X = 1`. -/
def gConstDecl : Node :=
  .rule .globalK "global_var_declr"
    [Node.token "CONSTANT" "constant", Node.token "ID" "integer", Node.token "ID" "X",
     Node.token "EQUALS" "=", Node.token "INT" "1"]

/-! ## Spec-side characterization of decoding (for claim C7) -/

/-- The 32-bit word beginning at the head of a buffer (0 past the end). -/
def word4 (bs : List Nat) : Nat :=
  bs.getD 0 0 + 256 * bs.getD 1 0 + 65536 * bs.getD 2 0 + 16777216 * bs.getD 3 0

/-- The camera record laid out at the head of a buffer. -/
def camAt (bs : List Nat) : Camera :=
  ⟨word4 bs, word4 (bs.drop 4), word4 (bs.drop 8), word4 (bs.drop 12),
   word4 (bs.drop 16), word4 (bs.drop 20), word4 (bs.drop 24), word4 (bs.drop 28),
   word4 (bs.drop 32), word4 (bs.drop 36), (bs.drop 40).takeWhile (fun b => b != 0)⟩

/-- A buffer begins with one complete camera record: the ten fixed-size
float fields are all present and the name's terminator occurs before the
buffer ends. -/
def cameraOK (bs : List Nat) : Prop := 40 ≤ bs.length ∧ 0 ∈ bs.drop 40

instance (bs : List Nat) : Decidable (cameraOK bs) := by
  unfold cameraOK; infer_instance

/-- What remains of a buffer after one camera record. -/
def cameraRest (bs : List Nat) : List Nat :=
  ((bs.drop 40).dropWhile (fun b => b != 0)).drop 1

/-- A buffer begins with `n` complete camera records. -/
def camerasOK : Nat → List Nat → Prop
  | 0, _ => True
  | n + 1, bs => cameraOK bs ∧ camerasOK n (cameraRest bs)

instance camerasOK.dec : (n : Nat) → (bs : List Nat) → Decidable (camerasOK n bs)
  | 0, _ => by unfold camerasOK; infer_instance
  | n + 1, bs => by
    unfold camerasOK
    have := camerasOK.dec n (cameraRest bs)
    infer_instance

/-- The version integer declared in a buffer's header. -/
def hdrVersion (bs : List Nat) : Int :=
  int32OfBytes (bs.getD 0 0) (bs.getD 1 0) (bs.getD 2 0) (bs.getD 3 0)

/-- The cameras_count integer declared in a buffer's header. -/
def hdrCount (bs : List Nat) : Int :=
  int32OfBytes (bs.getD 4 0) (bs.getD 5 0) (bs.getD 6 0) (bs.getD 7 0)

/-- An 8-byte buffer declaring version 0 and cameras_count -1: both header
integers are complete and no record bytes are required after them. -/
def negCountBuf : List Nat := [0, 0, 0, 0, 255, 255, 255, 255]

/-- A sample type declaration node. -/
def typeSample : Node :=
  .rule .typeK "type_declr"
    [Node.token "TYPE" "type", Node.token "ID" "T",
     Node.token "EXTENDS" "extends", Node.token "ID" "integer"]

/-- A sample global declaration `integer A`. -/
def globalDeclA : Node :=
  .rule .globalK "global_var_declr" [Node.token "ID" "integer", Node.token "ID" "A"]

/-- A sample global declaration `integer B`. -/
def globalDeclB : Node :=
  .rule .globalK "global_var_declr" [Node.token "ID" "integer", Node.token "ID" "B"]

/-- A globals block holding `globalDeclA`. -/
def globalsBlockA : Node :=
  .rule .base "globals"
    [Node.token "GLOBALS" "globals", nlTok, globalDeclA, nlTok,
     Node.token "ENDGLOBALS" "endglobals"]

/-- A second, separate globals block holding `globalDeclB`. -/
def globalsBlockB : Node :=
  .rule .base "globals"
    [Node.token "GLOBALS" "globals", nlTok, globalDeclB, nlTok,
     Node.token "ENDGLOBALS" "endglobals"]

/-- A sample native declaration node. -/
def nativeSample : Node :=
  .rule .nativeK "native_func_declr"
    [Node.token "NATIVE" "native", Node.rule .base "func_declr" sigKids]

/-- Children of a sample script holding two separate globals blocks. -/
def scriptSampleKids : List Node :=
  [typeSample, nlTok, globalsBlockA, globalsBlockB, funcSample, nlTok]

/-- A sample script root with two separate globals blocks. -/
def scriptSample : Node := .rule .scriptK "start" scriptSampleKids

/-- The sample script after the globals setter ran with `[globalDeclB]`. -/
def scriptSampleSetG : Node := (setGlobals scriptSample [globalDeclB]).getD default

/-- The sample script after the natives setter ran with `[nativeSample]`. -/
def scriptSampleSetN : Node := (setNatives scriptSample [nativeSample]).getD default

/-! ## Codec lemmas -/

/-- Recovering a 32-bit signed value from its little-endian bytes. -/
theorem int32OfBytes_emod (i : Int) (h1 : -2147483648 <= i) (h2 : i < 2147483648) :
    int32OfBytes ((i % 4294967296).toNat % 256) ((i % 4294967296).toNat / 256 % 256)
      ((i % 4294967296).toNat / 65536 % 256) ((i % 4294967296).toNat / 16777216 % 256) = i := by
  have hnn : (0 : Int) <= i % 4294967296 := Int.emod_nonneg _ (by norm_num)
  have hml : i % 4294967296 < 4294967296 := Int.emod_lt_of_pos _ (by norm_num)
  have hn : ((i % 4294967296).toNat : Int) = i % 4294967296 := Int.toNat_of_nonneg hnn
  have h3 : i % 4294967296 = i \/ i % 4294967296 = i + 4294967296 := by omega
  set n := (i % 4294967296).toNat with hdef
  have hlt : n < 4294967296 := by omega
  have hcomb : n % 256 + 256 * (n / 256 % 256) + 65536 * (n / 65536 % 256)
      + 16777216 * (n / 16777216 % 256) = n := by omega
  unfold int32OfBytes
  rw [hcomb]
  split <;> omega

/-- Parsing the bytes of a built integer recovers the value. -/
theorem parseInt32_build {i : Int} {b : List Nat} (hb : buildInt32 i = some b) :
    ∀ rest, parseInt32 (b ++ rest) = some (i, rest) := by
  intro rest
  unfold buildInt32 at hb
  split at hb
  · rename_i h
    simp only [Option.some.injEq] at hb
    subst hb
    simp only [List.cons_append, List.nil_append, parseInt32, Option.some.injEq,
      Prod.mk.injEq, and_true]
    exact int32OfBytes_emod i h.1 h.2
  · exact absurd hb (by simp)

/-- Parsing the bytes of a built float recovers the bit pattern. -/
theorem parseFloat_build {w : Nat} {b : List Nat} (hb : buildFloat w = some b) :
    ∀ rest, parseFloat (b ++ rest) = some (w, rest) := by
  intro rest
  unfold buildFloat at hb
  split at hb
  · rename_i h
    simp only [Option.some.injEq] at hb
    subst hb
    simp only [List.cons_append, List.nil_append, parseFloat,
      Option.some.injEq, Prod.mk.injEq, and_true]
    omega
  · exact absurd hb (by simp)

/-- Parsing a terminated string recovers a null-free name. -/
theorem parseString_build {s : List Nat} (hs : 0 ∉ s) :
    ∀ rest, parseString (buildString s ++ rest) = some (s, rest) := by
  induction s with
  | nil => intro rest; simp [buildString, parseString]
  | cons b s ih =>
    intro rest
    simp only [List.mem_cons, not_or] at hs
    have hb : ¬ (b = 0) := fun h => hs.1 h.symm
    have ih2 := ih hs.2 rest
    simp only [buildString, List.cons_append, List.append_assoc, List.nil_append] at ih2 ⊢
    simp [parseString, hb, ih2]

set_option maxHeartbeats 1000000 in
/-- Parsing the bytes of a built camera recovers the camera, provided its
name holds no terminator byte. -/
theorem parseCamera_build {c : Camera} {b : List Nat} (hb : buildCamera c = some b)
    (hn : 0 ∉ c.name) : ∀ rest, parseCamera (b ++ rest) = some (c, rest) := by
  intro rest
  unfold buildCamera at hb
  cases h0 : buildFloat c.target_x with
  | none => simp [h0] at hb
  | some b0 =>
  cases h1 : buildFloat c.target_y with
  | none => simp [h0, h1] at hb
  | some b1 =>
  cases h2 : buildFloat c.offset_z with
  | none => simp [h0, h1, h2] at hb
  | some b2 =>
  cases h3 : buildFloat c.rotation with
  | none => simp [h0, h1, h2, h3] at hb
  | some b3 =>
  cases h4 : buildFloat c.angle_of_attack with
  | none => simp [h0, h1, h2, h3, h4] at hb
  | some b4 =>
  cases h5 : buildFloat c.distance with
  | none => simp [h0, h1, h2, h3, h4, h5] at hb
  | some b5 =>
  cases h6 : buildFloat c.roll with
  | none => simp [h0, h1, h2, h3, h4, h5, h6] at hb
  | some b6 =>
  cases h7 : buildFloat c.field_of_view with
  | none => simp [h0, h1, h2, h3, h4, h5, h6, h7] at hb
  | some b7 =>
  cases h8 : buildFloat c.far_clipping with
  | none => simp [h0, h1, h2, h3, h4, h5, h6, h7, h8] at hb
  | some b8 =>
  cases h9 : buildFloat c.unknown with
  | none => simp [h0, h1, h2, h3, h4, h5, h6, h7, h8, h9] at hb
  | some b9 =>
  simp only [h0, h1, h2, h3, h4, h5, h6, h7, h8, h9, Option.bind_eq_bind,
    Option.some_bind, Option.pure_def, Option.some.injEq] at hb
  subst hb
  unfold parseCamera
  simp only [List.append_assoc, Option.bind_eq_bind]
  rw [parseFloat_build h0]
  simp only [Option.some_bind]
  rw [parseFloat_build h1]
  simp only [Option.some_bind]
  rw [parseFloat_build h2]
  simp only [Option.some_bind]
  rw [parseFloat_build h3]
  simp only [Option.some_bind]
  rw [parseFloat_build h4]
  simp only [Option.some_bind]
  rw [parseFloat_build h5]
  simp only [Option.some_bind]
  rw [parseFloat_build h6]
  simp only [Option.some_bind]
  rw [parseFloat_build h7]
  simp only [Option.some_bind]
  rw [parseFloat_build h8]
  simp only [Option.some_bind]
  rw [parseFloat_build h9]
  simp only [Option.some_bind]
  rw [parseString_build hn]
  simp only [Option.some_bind, Option.pure_def]

/-- Parsing the concatenated bytes of a built camera list recovers the
list, provided no name holds a terminator byte. -/
theorem parseCameras_build : ∀ (cams : List Camera) (bsl : List (List Nat)),
    buildCameras cams = some bsl → (∀ c ∈ cams, 0 ∉ c.name) →
    ∀ rest, parseCameras cams.length (bsl.flatten ++ rest) = some (cams, rest) := by
  intro cams
  induction cams with
  | nil =>
    intro bsl hm _ rest
    simp only [buildCameras, Option.some.injEq] at hm
    subst hm
    simp [parseCameras]
  | cons c cams ih =>
    intro bsl hm hn rest
    unfold buildCameras at hm
    cases hc : buildCamera c with
    | none => simp [hc] at hm
    | some b =>
    cases hcs : buildCameras cams with
    | none => simp [hc, hcs] at hm
    | some bs =>
    simp only [hc, hcs, Option.pure_def, Option.bind_eq_bind, Option.some_bind,
      Option.some.injEq] at hm
    subst hm
    have hnc : 0 ∉ c.name := hn c (by simp)
    have hncs : ∀ x ∈ cams, 0 ∉ x.name := fun x hx => hn x (by simp [hx])
    simp only [List.length_cons, List.flatten_cons, List.append_assoc, parseCameras,
      Option.bind_eq_bind]
    rw [parseCamera_build hc hnc]
    simp only [Option.some_bind]
    rw [ih bs hcs hncs rest]
    simp only [Option.some_bind, Option.pure_def]

/-- A built integer occupies four bytes. -/
theorem buildInt32_length {i : Int} {b : List Nat} (hb : buildInt32 i = some b) :
    b.length = 4 := by
  unfold buildInt32 at hb
  split at hb
  · simp only [Option.some.injEq] at hb; subst hb; rfl
  · exact absurd hb (by simp)

/-- C1 (amended): for every CamerasFile value none of whose camera names
holds a terminator (null) byte, Encode(Decode(Encode(value))) equals
Encode(value); when Encode fails, both sides fail alike. -/
theorem camerasFile_encode_roundtrip (f : CamerasFile)
    (hname : ∀ c ∈ f.cameras, 0 ∉ c.name) :
    ((buildCamerasFile f).bind parseCamerasFile).bind buildCamerasFile = buildCamerasFile f := by
  cases hb : buildCamerasFile f with
  | none => simp
  | some bs =>
    suffices hp : parseCamerasFile bs = some f by
      simp [hb, hp]
    unfold buildCamerasFile at hb
    cases hv : buildInt32 f.version with
    | none => simp [hv] at hb
    | some vb =>
    cases hc : buildInt32 f.cameras_count with
    | none => simp [hv, hc] at hb
    | some cb =>
    simp only [hv, hc, Option.bind_eq_bind, Option.some_bind] at hb
    split at hb
    · exact absurd hb (by simp)
    · split at hb
      · rename_i hnneg hlen
        cases hm : buildCameras f.cameras with
        | none => simp [hm] at hb
        | some bsl =>
        simp only [hm, Option.some_bind, Option.pure_def, Option.some.injEq] at hb
        subst hb
        unfold parseCamerasFile
        simp only [List.append_assoc, Option.bind_eq_bind]
        rw [parseInt32_build hv]
        simp only [Option.some_bind]
        rw [parseInt32_build hc]
        simp only [Option.some_bind]
        split
        · omega
        · have htn : f.cameras_count.toNat = f.cameras.length := by omega
          rw [htn, ← List.append_nil bsl.flatten] at *
          rw [parseCameras_build f.cameras bsl hm hname []]
          simp only [Option.some_bind, Option.pure_def]
      · exact absurd hb (by simp)

/-- C1 (counterexample): the round-trip equation fails for a value whose
camera name contains the terminator byte 0: encoding writes the name bytes
followed by a terminator, decoding stops the name at the embedded zero, so
re-encoding produces a shorter byte string. -/
theorem c1_counterexample :
    ((buildCamerasFile fileNullName).bind parseCamerasFile).bind buildCamerasFile
      ≠ buildCamerasFile fileNullName := by decide

/-- C1 (witness): the amended round-trip theorem applied to a concrete
one-camera value. -/
theorem c1_witness :
    ((buildCamerasFile fileSmall).bind parseCamerasFile).bind buildCamerasFile
      = buildCamerasFile fileSmall :=
  camerasFile_encode_roundtrip fileSmall (by decide)

/-- C2 (counterexample): a value whose stored cameras_count (5) disagrees
with the number of camera records supplied (0).  The claim asserts that the
encoded bytes would carry the recomputed count 0; instead Encode produces
no bytes at all — construct's `Array(this.cameras_count, Camera)` raises a
RangeError on the mismatch, because the count field is written from the
stored value and never recomputed. -/
theorem c2_counterexample : buildCamerasFile ⟨0, 5, []⟩ = none := by decide

/-- C2 (amended): Encode emits the version header followed by each camera
record in field order, writing the stored cameras_count field as given;
whenever Encode succeeds the stored count necessarily equals the number of
records supplied, and bytes 4..8 of the output encode that length.  When
the stored count disagrees with the record count, Encode fails instead of
recomputing. -/
theorem camerasFile_encode_count (f : CamerasFile) (bs : List Nat)
    (hb : buildCamerasFile f = some bs) :
    f.cameras_count = (f.cameras.length : Int)
      ∧ ∃ cb, buildInt32 (f.cameras.length : Int) = some cb ∧ (bs.drop 4).take 4 = cb := by
  unfold buildCamerasFile at hb
  cases hv : buildInt32 f.version with
  | none => simp [hv] at hb
  | some vb =>
  cases hc : buildInt32 f.cameras_count with
  | none => simp [hv, hc] at hb
  | some cb =>
  simp only [hv, hc, Option.bind_eq_bind, Option.some_bind] at hb
  split at hb
  · exact absurd hb (by simp)
  · split at hb
    · rename_i hnneg hlen
      cases hm : buildCameras f.cameras with
      | none => simp [hm] at hb
      | some bsl =>
      simp only [hm, Option.some_bind, Option.pure_def, Option.some.injEq] at hb
      subst hb
      refine ⟨hlen.symm, cb, ?_, ?_⟩
      · rw [hlen]; exact hc
      · have h4 : vb.length = 4 := buildInt32_length hv
        have hc4 : cb.length = 4 := buildInt32_length hc
        have hd : (vb ++ (cb ++ bsl.flatten)).drop 4 = cb ++ bsl.flatten := by
          rw [← h4]; exact List.drop_left _ _
        rw [List.append_assoc, hd, ← hc4, List.take_left]
    · exact absurd hb (by simp)

/-- C2 (witness): the amended count theorem applied to a concrete value. -/
theorem c2_witness :
    fileEmpty.cameras_count = (fileEmpty.cameras.length : Int)
      ∧ ∃ cb, buildInt32 (fileEmpty.cameras.length : Int) = some cb
          ∧ (([0, 0, 0, 0, 0, 0, 0, 0] : List Nat).drop 4).take 4 = cb :=
  camerasFile_encode_count fileEmpty [0, 0, 0, 0, 0, 0, 0, 0] (by decide)

/-- Bind distributes over a conditional option. -/
theorem ite_bind {α β : Type} (c : Prop) [Decidable c] (a b : Option α) (f : α → Option β) :
    ((if c then a else b) >>= f) = if c then (a >>= f) else (b >>= f) := by
  split <;> rfl

/-- Float parsing characterized by buffer length. -/
theorem parseFloat_char : ∀ bs : List Nat,
    parseFloat bs = if 4 ≤ bs.length then some (word4 bs, bs.drop 4) else none
  | [] => by simp [parseFloat]
  | [_] => by simp [parseFloat]
  | [_, _] => by simp [parseFloat]
  | [_, _, _] => by simp [parseFloat]
  | b0 :: b1 :: b2 :: b3 :: rest => by
    simp [parseFloat, word4]

/-- Integer parsing characterized by buffer length. -/
theorem parseInt32_char : ∀ bs : List Nat,
    parseInt32 bs =
      if 4 ≤ bs.length then
        some (int32OfBytes (bs.getD 0 0) (bs.getD 1 0) (bs.getD 2 0) (bs.getD 3 0), bs.drop 4)
      else none
  | [] => by simp [parseInt32]
  | [_] => by simp [parseInt32]
  | [_, _] => by simp [parseInt32]
  | [_, _, _] => by simp [parseInt32]
  | b0 :: b1 :: b2 :: b3 :: rest => by simp [parseInt32]

/-- String parsing characterized by the presence of a terminator. -/
theorem parseString_char : ∀ bs : List Nat,
    parseString bs =
      if 0 ∈ bs then
        some (bs.takeWhile (fun b => b != 0), (bs.dropWhile (fun b => b != 0)).drop 1)
      else none := by
  intro bs
  induction bs with
  | nil => simp [parseString]
  | cons b rest ih =>
    by_cases hb : b = 0
    · subst hb
      simp [parseString, List.takeWhile_cons, List.dropWhile_cons]
    · rw [parseString]
      simp only [if_neg hb, ih, List.takeWhile_cons, List.dropWhile_cons]
      have hbne : (b != 0) = true := by simpa using hb
      by_cases hm : 0 ∈ rest
      · have : (0 : Nat) ∈ b :: rest := List.mem_cons_of_mem _ hm
        simp [hm, this, hbne]
      · have : (0 : Nat) ∉ b :: rest := by
          simp only [List.mem_cons, not_or]
          exact ⟨fun h => hb h.symm, hm⟩
        simp [hm, this]

/-- `getD` through `drop`. -/
theorem getD_drop (l : List Nat) (n m : Nat) : (l.drop n).getD m 0 = l.getD (n + m) 0 := by
  simp [List.getD_eq_getElem?_getD, List.getElem?_drop]

/-- A float parse succeeds on a long-enough buffer. -/
theorem parseFloat_succ (bs : List Nat) (h : 4 ≤ bs.length) :
    parseFloat bs = some (word4 bs, bs.drop 4) := by
  rw [parseFloat_char, if_pos h]

/-- A float parse fails on a short buffer. -/
theorem parseFloat_fail (bs : List Nat) (h : bs.length < 4) : parseFloat bs = none := by
  rw [parseFloat_char, if_neg (by omega)]

set_option maxHeartbeats 1000000 in
/-- Camera parsing characterized: it succeeds exactly on a buffer holding
the ten fixed-size fields and a terminated name. -/
theorem parseCamera_char (bs : List Nat) :
    parseCamera bs = if cameraOK bs then some (camAt bs, cameraRest bs) else none := by
  unfold parseCamera
  by_cases h0 : 4 ≤ bs.length
  case neg =>
    rw [parseFloat_fail bs (by omega)]
    simp only [Option.none_bind, Option.bind_eq_bind]
    rw [if_neg (fun h : cameraOK bs => absurd h.1 (by omega))]
  case pos =>
    rw [parseFloat_succ bs h0]
    simp only [Option.bind_eq_bind, Option.some_bind, List.drop_drop, Nat.reduceAdd]
    by_cases h1 : 4 ≤ (bs.drop 4).length
    case neg =>
      rw [parseFloat_fail (bs.drop 4) (by simp only [List.length_drop] at h1 ⊢; omega)]
      simp only [Option.none_bind, Option.bind_eq_bind]
      rw [if_neg (fun h : cameraOK bs => absurd h.1 (by simp only [List.length_drop] at h1; omega))]
    case pos =>
      rw [parseFloat_succ (bs.drop 4) h1]
      simp only [Option.bind_eq_bind, Option.some_bind, List.drop_drop, Nat.reduceAdd]
      by_cases h2 : 4 ≤ (bs.drop 8).length
      case neg =>
        rw [parseFloat_fail (bs.drop 8) (by simp only [List.length_drop] at h2 ⊢; omega)]
        simp only [Option.none_bind, Option.bind_eq_bind]
        rw [if_neg (fun h : cameraOK bs => absurd h.1 (by simp only [List.length_drop] at h2; omega))]
      case pos =>
        rw [parseFloat_succ (bs.drop 8) h2]
        simp only [Option.bind_eq_bind, Option.some_bind, List.drop_drop, Nat.reduceAdd]
        by_cases h3 : 4 ≤ (bs.drop 12).length
        case neg =>
          rw [parseFloat_fail (bs.drop 12) (by simp only [List.length_drop] at h3 ⊢; omega)]
          simp only [Option.none_bind, Option.bind_eq_bind]
          rw [if_neg (fun h : cameraOK bs => absurd h.1 (by simp only [List.length_drop] at h3; omega))]
        case pos =>
          rw [parseFloat_succ (bs.drop 12) h3]
          simp only [Option.bind_eq_bind, Option.some_bind, List.drop_drop, Nat.reduceAdd]
          by_cases h4 : 4 ≤ (bs.drop 16).length
          case neg =>
            rw [parseFloat_fail (bs.drop 16) (by simp only [List.length_drop] at h4 ⊢; omega)]
            simp only [Option.none_bind, Option.bind_eq_bind]
            rw [if_neg (fun h : cameraOK bs => absurd h.1 (by simp only [List.length_drop] at h4; omega))]
          case pos =>
            rw [parseFloat_succ (bs.drop 16) h4]
            simp only [Option.bind_eq_bind, Option.some_bind, List.drop_drop, Nat.reduceAdd]
            by_cases h5 : 4 ≤ (bs.drop 20).length
            case neg =>
              rw [parseFloat_fail (bs.drop 20) (by simp only [List.length_drop] at h5 ⊢; omega)]
              simp only [Option.none_bind, Option.bind_eq_bind]
              rw [if_neg (fun h : cameraOK bs => absurd h.1 (by simp only [List.length_drop] at h5; omega))]
            case pos =>
              rw [parseFloat_succ (bs.drop 20) h5]
              simp only [Option.bind_eq_bind, Option.some_bind, List.drop_drop, Nat.reduceAdd]
              by_cases h6 : 4 ≤ (bs.drop 24).length
              case neg =>
                rw [parseFloat_fail (bs.drop 24) (by simp only [List.length_drop] at h6 ⊢; omega)]
                simp only [Option.none_bind, Option.bind_eq_bind]
                rw [if_neg (fun h : cameraOK bs => absurd h.1 (by simp only [List.length_drop] at h6; omega))]
              case pos =>
                rw [parseFloat_succ (bs.drop 24) h6]
                simp only [Option.bind_eq_bind, Option.some_bind, List.drop_drop, Nat.reduceAdd]
                by_cases h7 : 4 ≤ (bs.drop 28).length
                case neg =>
                  rw [parseFloat_fail (bs.drop 28) (by simp only [List.length_drop] at h7 ⊢; omega)]
                  simp only [Option.none_bind, Option.bind_eq_bind]
                  rw [if_neg (fun h : cameraOK bs => absurd h.1 (by simp only [List.length_drop] at h7; omega))]
                case pos =>
                  rw [parseFloat_succ (bs.drop 28) h7]
                  simp only [Option.bind_eq_bind, Option.some_bind, List.drop_drop, Nat.reduceAdd]
                  by_cases h8 : 4 ≤ (bs.drop 32).length
                  case neg =>
                    rw [parseFloat_fail (bs.drop 32) (by simp only [List.length_drop] at h8 ⊢; omega)]
                    simp only [Option.none_bind, Option.bind_eq_bind]
                    rw [if_neg (fun h : cameraOK bs => absurd h.1 (by simp only [List.length_drop] at h8; omega))]
                  case pos =>
                    rw [parseFloat_succ (bs.drop 32) h8]
                    simp only [Option.bind_eq_bind, Option.some_bind, List.drop_drop, Nat.reduceAdd]
                    by_cases h9 : 4 ≤ (bs.drop 36).length
                    case neg =>
                      rw [parseFloat_fail (bs.drop 36) (by simp only [List.length_drop] at h9 ⊢; omega)]
                      simp only [Option.none_bind, Option.bind_eq_bind]
                      rw [if_neg (fun h : cameraOK bs => absurd h.1 (by simp only [List.length_drop] at h9; omega))]
                    case pos =>
                      rw [parseFloat_succ (bs.drop 36) h9]
                      simp only [Option.bind_eq_bind, Option.some_bind, List.drop_drop, Nat.reduceAdd]
                      rw [parseString_char]
                      by_cases hm : (0 : Nat) ∈ bs.drop 40
                      case pos =>
                        rw [if_pos hm, if_pos (show cameraOK bs from ⟨by simp only [List.length_drop] at h9; omega, hm⟩)]
                        simp only [Option.bind_eq_bind, Option.some_bind, Option.pure_def, camAt, cameraRest]
                      case neg =>
                        rw [if_neg hm]
                        simp only [Option.bind_eq_bind, Option.none_bind]
                        rw [if_neg (fun h : cameraOK bs => hm h.2)]

/-- Parsing `n` camera records succeeds exactly when the buffer holds `n`
complete records. -/
theorem parseCameras_isSome : ∀ (n : Nat) (bs : List Nat),
    (parseCameras n bs).isSome = true ↔ camerasOK n bs := by
  intro n
  induction n with
  | zero => intro bs; simp [parseCameras, camerasOK]
  | succ n ih =>
    intro bs
    rw [parseCameras, parseCamera_char]
    by_cases hc : cameraOK bs
    · rw [if_pos hc]
      simp only [Option.bind_eq_bind, Option.some_bind]
      cases hp : parseCameras n (cameraRest bs) with
      | none =>
        have := ih (cameraRest bs)
        rw [hp] at this
        simp only [Option.isSome_none, Bool.false_eq_true, false_iff] at this
        simp [camerasOK, hc, this]
      | some p =>
        have := ih (cameraRest bs)
        rw [hp] at this
        simp only [Option.isSome_some, true_iff] at this
        simp [camerasOK, hc, this]
    · rw [if_neg hc]
      simp [camerasOK, hc]

/-- A successful record-list parse returns exactly the declared number of
records. -/
theorem parseCameras_length : ∀ (n : Nat) (bs : List Nat) (l : List Camera) (r : List Nat),
    parseCameras n bs = some (l, r) → l.length = n := by
  intro n
  induction n with
  | zero =>
    intro bs l r h
    simp only [parseCameras, Option.some.injEq, Prod.mk.injEq] at h
    rw [← h.1]
    rfl
  | succ n ih =>
    intro bs l r h
    rw [parseCameras] at h
    cases h1 : parseCamera bs with
    | none => rw [h1] at h; simp at h
    | some p =>
      rw [h1] at h
      simp only [Option.bind_eq_bind, Option.some_bind] at h
      cases h2 : parseCameras n p.2 with
      | none => rw [h2] at h; simp at h
      | some q =>
        rw [h2] at h
        simp only [Option.some_bind, Option.pure_def, Option.some.injEq, Prod.mk.injEq] at h
        have := ih p.2 q.1 q.2 h2
        rw [← h.1]
        simp [this]

/-- File parsing characterized in terms of the declared header values. -/
theorem parseCamerasFile_char (bs : List Nat) :
    parseCamerasFile bs =
      if 8 ≤ bs.length then
        if 0 ≤ hdrCount bs then
          (parseCameras (hdrCount bs).toNat (bs.drop 8)).bind
            (fun p => some ⟨hdrVersion bs, hdrCount bs, p.1⟩)
        else none
      else none := by
  unfold parseCamerasFile hdrCount hdrVersion
  rw [parseInt32_char]
  by_cases h4 : 4 ≤ bs.length
  case neg =>
    rw [if_neg h4]
    simp only [Option.bind_eq_bind, Option.none_bind]
    rw [if_neg (by omega)]
  case pos =>
    rw [if_pos h4]
    simp only [Option.bind_eq_bind, Option.some_bind]
    rw [parseInt32_char]
    by_cases h8 : 4 ≤ (bs.drop 4).length
    case neg =>
      rw [if_neg h8]
      simp only [Option.none_bind]
      rw [if_neg (by simp only [List.length_drop] at h8; omega)]
    case pos =>
      have h8len : 8 ≤ bs.length := by simp only [List.length_drop] at h8; omega
      rw [if_pos h8]
      simp only [Option.some_bind, getD_drop, Nat.reduceAdd, List.drop_drop]
      rw [if_pos h8len]
      by_cases hn :
          int32OfBytes (bs.getD 4 0) (bs.getD 5 0) (bs.getD 6 0) (bs.getD 7 0) < 0
      case pos =>
        rw [if_pos hn, if_neg (by omega)]
      case neg =>
        rw [if_neg hn, if_pos (by omega)]
        simp only [Option.pure_def]

/-- C7 (amended): decode reads the two header integers and then exactly
cameras_count camera records in the fixed field order; it fails exactly
when the buffer is truncated before a fixed-size field or record
completes, when a name's terminator is never found, or when the declared
count is negative; it never fails on account of the version value —
replacing the four version bytes changes only the decoded version field. -/
theorem camerasFile_decode_char :
    (∀ bs : List Nat, (parseCamerasFile bs).isSome = true ↔
        8 ≤ bs.length ∧ 0 ≤ hdrCount bs ∧ camerasOK (hdrCount bs).toNat (bs.drop 8))
    ∧ (∀ (bs : List Nat) (f : CamerasFile), parseCamerasFile bs = some f →
        f.version = hdrVersion bs ∧ f.cameras_count = hdrCount bs
          ∧ f.cameras.length = (hdrCount bs).toNat)
    ∧ (∀ (a0 a1 a2 a3 b0 b1 b2 b3 : Nat) (rest : List Nat),
        parseCamerasFile (a0 :: a1 :: a2 :: a3 :: rest)
          = Option.map
              (fun f => ⟨int32OfBytes a0 a1 a2 a3, f.cameras_count, f.cameras⟩)
              (parseCamerasFile (b0 :: b1 :: b2 :: b3 :: rest))) := by
  refine ⟨?_, ?_, ?_⟩
  · intro bs
    rw [parseCamerasFile_char]
    by_cases h8 : 8 ≤ bs.length
    · rw [if_pos h8]
      by_cases hn : 0 ≤ hdrCount bs
      · rw [if_pos hn]
        cases hp : parseCameras (hdrCount bs).toNat (bs.drop 8) with
        | none =>
          have hiff := parseCameras_isSome (hdrCount bs).toNat (bs.drop 8)
          rw [hp] at hiff
          simp only [Option.isSome_none, Bool.false_eq_true, false_iff] at hiff
          simp [h8, hn, hiff]
        | some p =>
          have hiff := parseCameras_isSome (hdrCount bs).toNat (bs.drop 8)
          rw [hp] at hiff
          simp only [Option.isSome_some, true_iff] at hiff
          simp [h8, hn, hiff]
      · rw [if_neg hn]
        simp [hn]
    · rw [if_neg h8]
      simp [h8]
  · intro bs f hf
    rw [parseCamerasFile_char] at hf
    by_cases h8 : 8 ≤ bs.length
    · rw [if_pos h8] at hf
      by_cases hn : 0 ≤ hdrCount bs
      · rw [if_pos hn] at hf
        cases hp : parseCameras (hdrCount bs).toNat (bs.drop 8) with
        | none => rw [hp] at hf; simp at hf
        | some p =>
          rw [hp] at hf
          simp only [Option.some_bind, Option.bind_eq_bind, Option.some.injEq] at hf
          subst hf
          exact ⟨rfl, rfl, parseCameras_length _ _ p.1 p.2 (by rw [hp])⟩
      · rw [if_neg hn] at hf; simp at hf
    · rw [if_neg h8] at hf; simp at hf
  · intro a0 a1 a2 a3 b0 b1 b2 b3 rest
    have ha : parseInt32 (a0 :: a1 :: a2 :: a3 :: rest)
        = some (int32OfBytes a0 a1 a2 a3, rest) := rfl
    have hb : parseInt32 (b0 :: b1 :: b2 :: b3 :: rest)
        = some (int32OfBytes b0 b1 b2 b3, rest) := rfl
    unfold parseCamerasFile
    rw [ha, hb]
    simp only [Option.bind_eq_bind, Option.some_bind]
    cases h2 : parseInt32 rest with
    | none => simp
    | some q =>
      simp only [Option.some_bind]
      by_cases hn : q.1 < 0
      · rw [if_pos hn, if_pos hn]
        simp
      · rw [if_neg hn, if_neg hn]
        cases hp : parseCameras q.1.toNat q.2 with
        | none => simp
        | some p => simp

/-- C7 (counterexample to the claim as stated): an 8-byte buffer holding a
complete header (version 0, cameras_count -1) and requiring no further
record bytes: nothing is truncated and no name field lacks a terminator,
yet decode fails — on account of the negative count, a failure mode the
claim's "exactly when" omits. -/
theorem c7_counterexample :
    parseCamerasFile negCountBuf = none
      ∧ 8 ≤ negCountBuf.length
      ∧ camerasOK (hdrCount negCountBuf).toNat (negCountBuf.drop 8) := by
  refine ⟨by decide, by decide, ?_⟩
  show camerasOK 0 []
  simp [camerasOK]

/-- C7 (witness): the second component of the characterization applied to
the encoding of a concrete one-camera file. -/
theorem c7_witness :
    (⟨0, 0, []⟩ : CamerasFile).version = hdrVersion [0, 0, 0, 0, 0, 0, 0, 0]
      ∧ (⟨0, 0, []⟩ : CamerasFile).cameras_count = hdrCount [0, 0, 0, 0, 0, 0, 0, 0]
      ∧ (⟨0, 0, []⟩ : CamerasFile).cameras.length = (hdrCount [0, 0, 0, 0, 0, 0, 0, 0]).toNat :=
  camerasFile_decode_char.2.1 [0, 0, 0, 0, 0, 0, 0, 0] ⟨0, 0, []⟩ (by decide)

/-! ## Token-pair lookup (claims C9, C8) -/

/-- The lookup loop passes over a span holding no token of the requested
kind and returns Python's `None` at the end of the children. -/
theorem ftpAux_notfound : ∀ (t : String) (o : Nat) (all rest : List Node) (i : Nat),
    (∀ x ∈ rest, isTokenOfKind t x = false) → ftpAux t o all i rest = some none := by
  intro t o all rest
  induction rest with
  | nil => intro i _; rfl
  | cons n rest ih =>
    intro i h
    cases n with
    | token ty v =>
      have := h (.token ty v) (by simp)
      simp only [isTokenOfKind] at this
      rw [ftpAux, if_neg (by simp [this])]
      exact ih (i + 1) (fun x hx => h x (by simp [hx]))
    | rule k d cs =>
      rw [ftpAux]
      exact ih (i + 1) (fun x hx => h x (by simp [hx]))

/-- The lookup loop stops at the first token of the requested kind and
pairs it with the child `offset` places further on. -/
theorem ftpAux_found : ∀ (t : String) (o : Nat) (all : List Node) (pre : List Node)
    (ty val : String) (b : List Node) (i : Nat) (m : Node),
    (∀ x ∈ pre, isTokenOfKind t x = false) → (ty == t) = true →
    all[i + pre.length + o]? = some m →
    ftpAux t o all i (pre ++ Node.token ty val :: b) = some (some (Node.token ty val, m)) := by
  intro t o all pre
  induction pre with
  | nil =>
    intro ty val b i m _ hty hm
    simp only [List.nil_append]
    rw [ftpAux, if_pos hty]
    simp only [List.length_nil, Nat.add_zero] at hm
    rw [hm]
  | cons p pre ih =>
    intro ty val b i m hpre hty hm
    have hp := hpre p (by simp)
    cases p with
    | token pty pv =>
      simp only [isTokenOfKind] at hp
      simp only [List.cons_append]
      rw [ftpAux, if_neg (by simp [hp])]
      refine ih ty val b (i + 1) m (fun x hx => hpre x (by simp [hx])) hty ?_
      simp only [List.length_cons] at hm
      have harith : i + 1 + pre.length + o = i + (pre.length + 1) + o := by omega
      rw [harith]
      exact hm
    | rule k d cs =>
      simp only [List.cons_append]
      rw [ftpAux]
      refine ih ty val b (i + 1) m (fun x hx => hpre x (by simp [hx])) hty ?_
      simp only [List.length_cons] at hm
      have harith : i + 1 + pre.length + o = i + (pre.length + 1) + o := by omega
      rw [harith]
      exact hm

/-- C9: token-pair lookup scans the direct children left to right; when
the first leaf token of the requested kind sits at position i (= the
length of the token-free prefix) and the child at position i+offset
exists, it returns that pair; when no token of the kind exists among the
direct children it returns the no-value sentinel (Python `None`) without
faulting. -/
theorem find_token_pair_char :
    (∀ (t : String) (o : Nat) (pre : List Node) (ty val : String) (b : List Node) (m : Node),
      (∀ x ∈ pre, isTokenOfKind t x = false) → (ty == t) = true →
      (pre ++ Node.token ty val :: b)[pre.length + o]? = some m →
      findTokenPair t o (pre ++ Node.token ty val :: b) = some (some (Node.token ty val, m)))
    ∧ (∀ (t : String) (o : Nat) (cs : List Node),
      (∀ x ∈ cs, isTokenOfKind t x = false) → findTokenPair t o cs = some none) := by
  constructor
  · intro t o pre ty val b m hpre hty hm
    unfold findTokenPair
    refine ftpAux_found t o _ pre ty val b 0 m hpre hty ?_
    simpa using hm
  · intro t o cs h
    exact ftpAux_notfound t o cs cs 0 h

/-- C9 (witness): lookup of `EQUALS` on the children of a declaration with
an initializer finds the pair, and lookup on children with no such token
returns the sentinel. -/
theorem find_token_pair_witness :
    findTokenPair "EQUALS" 1
        ([Node.token "ID" "x"] ++ Node.token "EQUALS" "=" :: [Node.token "INT" "1"])
      = some (some (Node.token "EQUALS" "=", Node.token "INT" "1"))
      ∧ findTokenPair "EQUALS" 1 [Node.token "ID" "x", Node.token "INT" "1"] = some none := by
  constructor
  · exact find_token_pair_char.1 "EQUALS" 1 [Node.token "ID" "x"] "EQUALS" "=" [Node.token "INT" "1"]
      (Node.token "INT" "1") (by decide) (by decide) (by decide)
  · exact find_token_pair_char.2 "EQUALS" 1 [Node.token "ID" "x", Node.token "INT" "1"] (by decide)

/-! ## Global variable declaration accessors (claim C8) -/

/-- Inversion of a successful `is_constant` read on a global declaration:
the first child is a token and the flag tests its kind. -/
theorem globalIsConstant_inv {k : NodeKind} {d : String} {cs : List Node} {b : Bool}
    (h : globalIsConstant (.rule k d cs) = some b) :
    ∃ t v, cs[0]? = some (Node.token t v) ∧ b = (t == "CONSTANT") := by
  unfold globalIsConstant at h
  simp only [Node.getChildren, Option.bind_eq_bind, Option.some_bind] at h
  cases h0 : cs[0]? with
  | none => rw [h0] at h; simp at h
  | some c0 =>
    rw [h0] at h
    cases c0 with
    | token t v =>
      simp only [Node.tokenType, Option.some_bind, Option.pure_def, Option.some.injEq] at h
      exact ⟨t, v, rfl, h.symm⟩
    | rule k2 d2 cs2 =>
      simp [Node.tokenType] at h

/-- C8: on a global variable declaration node, id is the child at index 2
when the declaration is constant or array and at index 1 otherwise; type
is the child at index 1 when constant and at index 0 otherwise;
is_constant holds exactly when the first child is a CONSTANT token; and
when an EQUALS token is present with a following child, the initializer
getter returns that following child rather than the no-value sentinel. -/
theorem global_positional_accessors (n : Node) (cs : List Node)
    (hcs : n.getChildren = some cs) :
    (globalIsConstant n = some true → globalId n = cs[2]? ∧ globalType n = cs[1]?)
    ∧ (globalIsConstant n = some false → varIsArray n = some true → globalId n = cs[2]?)
    ∧ (globalIsConstant n = some false → varIsArray n = some false → globalId n = cs[1]?)
    ∧ (globalIsConstant n = some false → globalType n = cs[0]?)
    ∧ (∀ b, globalIsConstant n = some b →
        (b = true ↔ ∃ v, cs[0]? = some (Node.token "CONSTANT" v)))
    ∧ (∀ (pre : List Node) (val : String) (b : List Node) (m : Node),
        cs = pre ++ Node.token "EQUALS" val :: b →
        (∀ x ∈ pre, isTokenOfKind "EQUALS" x = false) →
        cs[pre.length + 1]? = some m →
        varValue n = some (some m)) := by
  cases n with
  | token ty v => simp [Node.getChildren] at hcs
  | rule k d cs0 =>
  simp only [Node.getChildren, Option.some.injEq] at hcs
  subst hcs
  refine ⟨?_, ?_, ?_, ?_, ?_, ?_⟩
  · intro hc
    constructor
    · unfold globalId
      rw [hc]
      simp [Node.getChildren]
    · unfold globalType
      rw [hc]
      simp [Node.getChildren]
  · intro hc ha
    unfold globalId
    rw [hc]
    simp only [Node.getChildren, Option.bind_eq_bind, Option.some_bind, Bool.false_eq_true,
      if_false]
    rw [ha]
    simp
  · intro hc ha
    unfold globalId
    rw [hc]
    simp only [Node.getChildren, Option.bind_eq_bind, Option.some_bind, Bool.false_eq_true,
      if_false]
    rw [ha]
    simp
  · intro hc
    unfold globalType
    rw [hc]
    simp [Node.getChildren]
  · intro b hb
    obtain ⟨t, v, h0, hbt⟩ := globalIsConstant_inv hb
    constructor
    · intro htrue
      subst htrue
      have : t = "CONSTANT" := by
        have := hbt.symm
        simpa using this
      subst this
      exact ⟨v, h0⟩
    · intro ⟨v2, hv2⟩
      rw [h0] at hv2
      simp only [Option.some.injEq] at hv2
      cases hv2
      simp at hbt
      simp [hbt]
  · intro pre val b m hdec hpre hm
    unfold varValue findTokenPair
    simp only [Node.getChildren, Option.bind_eq_bind, Option.some_bind]
    subst hdec
    rw [ftpAux_found "EQUALS" 1 _ pre "EQUALS" val b 0 m hpre (by simp) (by simpa using hm)]
    simp

/-! ## Parameter list round trip (claim C5) -/

/-- `getD` offset through a left factor of an append. -/
theorem getD_append_len (l r : List Node) (k : Nat) :
    (l ++ r).getD (l.length + k) default = r.getD k default := by
  rw [List.getD_eq_getElem?_getD, List.getD_eq_getElem?_getD,
    List.getElem?_append_right (by omega)]
  have harith : l.length + k - l.length = k := by omega
  rw [harith]

/-- The flat pair-comma emission is three children per pair. -/
theorem flatMap_pairs_length (v : List (Node × Node)) :
    (v.flatMap fun a => [a.1, a.2, commaTok]).length = 3 * v.length := by
  induction v with
  | nil => rfl
  | cons x v ih =>
    simp only [List.flatMap_cons, List.length_append, List.length_cons, List.length_nil, ih]
    omega

/-- The reading loop recovers the emitted pairs: over a children list made
of any prefix, the pair-comma emission with its final comma popped, and
any suffix, scanning from the prefix's end recovers the pairs. -/
theorem takesLoop_pairs : ∀ (v : List (Node × Node)), v ≠ [] → ∀ (pre suf : List Node),
    takesLoop (pre ++ (v.flatMap fun a => [a.1, a.2, commaTok]).dropLast ++ suf) pre.length
      (pre.length + ((v.flatMap fun a => [a.1, a.2, commaTok]).dropLast).length) = v := by
  intro v
  induction v with
  | nil => intro h; exact absurd rfl h
  | cons x v ih =>
    intro _ pre suf
    cases v with
    | nil =>
      simp only [List.flatMap_cons, List.flatMap_nil, List.append_nil, List.append_assoc]
      rw [takesLoop,
        if_pos (by simp only [List.length_dropLast, List.length_cons, List.length_nil]; omega)]
      rw [takesLoop,
        if_neg (by simp only [List.length_dropLast, List.length_cons, List.length_nil]; omega)]
      have e1 := getD_append_len pre (([x.1, x.2, commaTok] : List Node).dropLast ++ suf) 0
      have e2 := getD_append_len pre (([x.1, x.2, commaTok] : List Node).dropLast ++ suf) 1
      rw [Nat.add_zero] at e1
      rw [e1, e2]
      rfl
    | cons y v2 =>
      have hflat : ((x :: y :: v2).flatMap fun a => [a.1, a.2, commaTok]).dropLast
          = [x.1, x.2, commaTok] ++ ((y :: v2).flatMap fun a => [a.1, a.2, commaTok]).dropLast := by
        rw [List.flatMap_cons]
        exact List.dropLast_append_of_ne_nil _ (by simp [List.flatMap_cons])
      rw [hflat]
      simp only [List.append_assoc]
      rw [takesLoop,
        if_pos (by
          simp only [List.length_append, List.length_cons]
          omega)]
      have e1 := getD_append_len pre
        (([x.1, x.2, commaTok] : List Node)
          ++ (((y :: v2).flatMap fun a => [a.1, a.2, commaTok]).dropLast ++ suf)) 0
      have e2 := getD_append_len pre
        (([x.1, x.2, commaTok] : List Node)
          ++ (((y :: v2).flatMap fun a => [a.1, a.2, commaTok]).dropLast ++ suf)) 1
      rw [Nat.add_zero] at e1
      rw [e1, e2]
      simp only [List.cons_append, List.getD_cons_zero, List.getD_cons_succ]
      have hpair : ((x.1, x.2) : Node × Node) = x := rfl
      rw [hpair]
      have hia := ih (by simp) (pre ++ [x.1, x.2, commaTok]) suf
      congr 1
      convert hia using 2 <;>
        first
          | (simp [List.append_assoc]; done)
          | (simp only [List.length_append, List.length_cons, List.length_nil]; omega)

/-- Core of the takes round trip at the children level: reading back the
children assigned by the setter recovers the pair list. -/
theorem takesRead_core (dcs : List Node) (v : List (Node × Node)) (h2 : 2 ≤ dcs.length) :
    (if (takesNew dcs v).length - 2 = 3 then ([] : List (Node × Node))
     else takesLoop (takesNew dcs v) 2 ((takesNew dcs v).length - 2)) = v := by
  have lenTake : (dcs.take 2).length = 2 := by
    rw [List.length_take]
    omega
  have lenDrop : (dcs.drop (dcs.length - 2)).length = 2 := by
    rw [List.length_drop]
    omega
  cases v with
  | nil =>
    have hL : (takesNew dcs []).length = 5 := by
      simp [takesNew, lenTake, lenDrop]
    rw [if_pos (by rw [hL])]
  | cons p v2 =>
    have hm : ((p :: v2).flatMap fun a => [a.1, a.2, commaTok]).dropLast.length
        = 3 * (p :: v2).length - 1 := by
      rw [List.length_dropLast, flatMap_pairs_length]
    have hL : (takesNew dcs (p :: v2)).length = 3 * (p :: v2).length + 3 := by
      unfold takesNew
      rw [if_neg (by simp)]
      simp only [List.length_append, lenTake, lenDrop, hm]
      simp only [List.length_cons]
      omega
    rw [if_neg (by rw [hL]; simp only [List.length_cons]; omega)]
    unfold takesNew
    rw [if_neg (by simp)]
    convert takesLoop_pairs (p :: v2) (by simp) (dcs.take 2) (dcs.drop (dcs.length - 2))
        using 2
    · rw [lenTake]
    · rw [lenTake, hm]
      simp only [List.length_append, lenTake, lenDrop, hm]
      simp only [List.length_cons]
      omega

/-- A conditional between two present options is a present conditional. -/
theorem ite_some {α : Type} (c : Prop) [Decidable c] (a b : α) :
    (if c then (some a : Option α) else some b) = some (if c then a else b) := by
  split <;> rfl

/-- C5: on a function-like declaration whose signature node has at least
its two leading children, setting the parameter list and reading it back
yields exactly the list set (including the empty read for the empty list);
the signature node's first two children and its trailing children from
args_stop onward are unchanged, and the empty list reduces the parameter
region to a single `nothing` marker token. -/
theorem takes_roundtrip (n n2 declr : Node) (dcs : List Node) (v : List (Node × Node))
    (hset : takesSet n v = some n2)
    (hdeclr : getDeclr n = some declr)
    (hdcs : declr.getChildren = some dcs)
    (hlen : 2 ≤ dcs.length) :
    takesGet n2 = some v
    ∧ getDeclr n2 = some (declr.withChildren (takesNew dcs v))
    ∧ (takesNew dcs v).take 2 = dcs.take 2
    ∧ (takesNew dcs v).drop ((takesNew dcs v).length - 2) = dcs.drop (dcs.length - 2)
    ∧ (v = [] → takesNew dcs v = dcs.take 2 ++ [nothingTok] ++ dcs.drop (dcs.length - 2)) := by
  unfold takesSet at hset
  cases hc : funcIsConstant n with
  | none => rw [hc] at hset; simp at hset
  | some c =>
  rw [hc] at hset
  simp only [Option.bind_eq_bind, Option.some_bind] at hset
  cases n with
  | token ty val =>
    unfold funcIsConstant at hc
    simp [Node.getChildren] at hc
  | rule k d cs =>
  simp only [Node.getChildren, Option.some_bind] at hset
  cases hdi : cs[if c = true then 2 else 1]? with
  | none => rw [hdi] at hset; simp at hset
  | some declr2 =>
  rw [hdi] at hset
  simp only [Option.some_bind] at hset
  have hdeclr2 : declr2 = declr := by
    unfold getDeclr at hdeclr
    rw [hc] at hdeclr
    simp only [Node.getChildren, Option.bind_eq_bind, Option.some_bind] at hdeclr
    by_cases hcb : c = true
    · rw [if_pos hcb] at hdi
      rw [hcb] at hdeclr
      simp only [if_true] at hdeclr
      rw [hdi] at hdeclr
      simpa using hdeclr
    · rw [if_neg hcb] at hdi
      have : c = false := by simp at hcb; exact hcb
      rw [this] at hdeclr
      simp only [Bool.false_eq_true, if_false] at hdeclr
      rw [hdi] at hdeclr
      simpa using hdeclr
  subst hdeclr2
  obtain ⟨kd, dd, rfl⟩ : ∃ kd dd, declr2 = Node.rule kd dd dcs := by
    cases declr2 with
    | token t2 v2 => simp [Node.getChildren] at hdcs
    | rule kd dd dcs2 =>
      simp only [Node.getChildren, Option.some.injEq] at hdcs
      rw [hdcs]
      exact ⟨kd, dd, rfl⟩
  simp only [Option.some_bind, Option.pure_def, Option.some.injEq] at hset
  have hidxlt : (if c = true then 2 else 1) < cs.length := by
    have := List.getElem?_eq_some.mp hdi
    exact this.1
  have hidxne : (0 : Nat) ≠ (if c = true then 2 else 1) := by
    split <;> omega
  subst hset
  have hchildren2 :
      (Node.rule k d cs).withChildren
          (cs.set (if c = true then 2 else 1)
            ((Node.rule kd dd dcs).withChildren (takesNew dcs v)))
        = Node.rule k d
            (cs.set (if c = true then 2 else 1) (Node.rule kd dd (takesNew dcs v))) := rfl
  rw [hchildren2]
  have hc2 : funcIsConstant
      (Node.rule k d (cs.set (if c = true then 2 else 1) (Node.rule kd dd (takesNew dcs v))))
      = some c := by
    unfold funcIsConstant at hc ⊢
    simp only [Node.getChildren, Option.bind_eq_bind, Option.some_bind] at hc ⊢
    rw [List.getElem?_set_ne hidxne.symm]
    exact hc
  have hget2 : getDeclr
      (Node.rule k d (cs.set (if c = true then 2 else 1) (Node.rule kd dd (takesNew dcs v))))
      = some (Node.rule kd dd (takesNew dcs v)) := by
    unfold getDeclr
    rw [hc2]
    simp only [Node.getChildren, Option.bind_eq_bind, Option.some_bind]
    by_cases hcb : c = true
    · rw [hcb]
      simp only [if_true]
      refine List.getElem?_set_self ?_
      rw [hcb] at hidxlt
      simpa using hidxlt
    · have hcf : c = false := by simp at hcb; exact hcb
      rw [hcf]
      simp only [Bool.false_eq_true, if_false]
      refine List.getElem?_set_self ?_
      rw [hcf] at hidxlt
      simpa using hidxlt
  refine ⟨?_, ?_, ?_, ?_, ?_⟩
  · unfold takesGet
    rw [hget2]
    simp only [Node.getChildren, Option.bind_eq_bind, Option.some_bind, Option.pure_def]
    rw [ite_some]
    rw [takesRead_core dcs v hlen]
  · rw [hget2]
    rfl
  · unfold takesNew
    rw [List.append_assoc]
    have := List.take_left (dcs.take 2)
      ((if v.length = 0 then [nothingTok]
        else (v.flatMap fun a => [a.1, a.2, commaTok]).dropLast)
        ++ dcs.drop (dcs.length - 2))
    rw [List.length_take, Nat.min_eq_left hlen] at this
    exact this
  · have hdl : (dcs.drop (dcs.length - 2)).length = 2 := by
      rw [List.length_drop]; omega
    unfold takesNew
    have hlen2 : ((dcs.take 2
        ++ (if v.length = 0 then [nothingTok]
            else (v.flatMap fun a => [a.1, a.2, commaTok]).dropLast))
        ++ dcs.drop (dcs.length - 2)).length - 2
        = (dcs.take 2
            ++ (if v.length = 0 then [nothingTok]
                else (v.flatMap fun a => [a.1, a.2, commaTok]).dropLast)).length := by
      rw [List.length_append, hdl]
      omega
    rw [hlen2]
    exact List.drop_left _ _
  · intro hv
    subst hv
    simp [takesNew]

/-- C5 (witness): the takes round trip applied to a concrete non-constant
function whose signature initially declares no parameters. -/
theorem c5_witness :
    takesGet funcSampleSet = some takesSampleArgs
    ∧ getDeclr funcSampleSet = some (sigSample.withChildren (takesNew sigKids takesSampleArgs))
    ∧ (takesNew sigKids takesSampleArgs).take 2 = sigKids.take 2
    ∧ (takesNew sigKids takesSampleArgs).drop ((takesNew sigKids takesSampleArgs).length - 2)
        = sigKids.drop (sigKids.length - 2)
    ∧ (takesSampleArgs = [] → takesNew sigKids takesSampleArgs
        = sigKids.take 2 ++ [nothingTok] ++ sigKids.drop (sigKids.length - 2)) :=
  takes_roundtrip funcSample funcSampleSet sigSample sigKids takesSampleArgs
    (by decide) (by decide) (by decide) (by decide)

/-- C8 (witness): the positional accessors applied to the concrete
declaration `constant integer X = 1`. -/
theorem c8_witness :
    globalId gConstDecl = some (Node.token "ID" "X")
    ∧ globalType gConstDecl = some (Node.token "ID" "integer")
    ∧ globalIsConstant gConstDecl = some true
    ∧ varValue gConstDecl = some (some (Node.token "INT" "1")) := by
  have h := global_positional_accessors gConstDecl
    [Node.token "CONSTANT" "constant", Node.token "ID" "integer", Node.token "ID" "X",
     Node.token "EQUALS" "=", Node.token "INT" "1"] (by decide)
  refine ⟨?_, ?_, by decide, ?_⟩
  · exact ((h.1 (by decide)).1).trans (by decide)
  · exact ((h.1 (by decide)).2).trans (by decide)
  · exact h.2.2.2.2.2
      [Node.token "CONSTANT" "constant", Node.token "ID" "integer", Node.token "ID" "X"]
      "=" [Node.token "INT" "1"] (Node.token "INT" "1") (by decide) (by decide) (by decide)

/-! ## Script root collections (claims C3, C6, C10) -/

/-- A node matching one kind fails to match any other kind. -/
theorem matchesKind_ne {s t : String} {x : Node} (hx : matchesKind s x = true)
    (hst : s ≠ t) : matchesKind t x = false := by
  cases x with
  | token ty v =>
    simp only [matchesKind, beq_iff_eq] at hx
    subst hx
    simp only [matchesKind, beq_eq_false_iff_ne]
    exact hst
  | rule k d cs =>
    simp only [matchesKind, beq_iff_eq] at hx
    subst hx
    simp only [matchesKind, beq_eq_false_iff_ne]
    exact hst

/-- The newline separators vanish from any filter for a non-newline kind. -/
theorem filter_nlJoin (t : String) (l : List Node) (hne : t ≠ "NEWLINE") :
    (nlJoin l).filter (matchesKind t) = l.filter (matchesKind t) := by
  induction l with
  | nil => rfl
  | cons x l ih =>
    have hnl : matchesKind t nlTok = false := by
      simp only [nlTok, matchesKind, beq_iff_eq]
      simp
      exact fun h => hne h.symm
    simp only [nlJoin, List.flatMap_cons, List.cons_append, List.nil_append,
      List.filter_cons, hnl] at ih ⊢
    cases hx : matchesKind t x <;> simp [hx, ih]

/-- Filtering a filtered list for the same kind changes nothing. -/
theorem filter_idem (t : String) (l : List Node) :
    (l.filter (matchesKind t)).filter (matchesKind t) = l.filter (matchesKind t) := by
  rw [List.filter_eq_self]
  intro a ha
  exact List.of_mem_filter ha

/-- Filtering a list of one kind for a different kind yields nothing. -/
theorem filter_ne_nil {s t : String} (l : List Node) (hst : s ≠ t) :
    (l.filter (matchesKind s)).filter (matchesKind t) = [] := by
  rw [List.filter_eq_nil_iff]
  intro a ha
  simp [matchesKind_ne (List.of_mem_filter ha) hst]

/-- The synthesized globals block matches exactly the `globals` kind. -/
theorem matchesKind_gBlock (t : String) (gl : List Node) :
    matchesKind t (gBlock gl) = ("globals" == t) := rfl

/-- Filtering the rebuilt root children for a non-newline kind. -/
theorem rebuildChildren_filter (ts ns gl fs : List Node) (t : String) (hne : t ≠ "NEWLINE") :
    (rebuildChildren ts ns gl fs).filter (matchesKind t)
      = (ts ++ ns).filter (matchesKind t)
        ++ (if ("globals" == t) = true then [gBlock gl] else [])
        ++ fs.filter (matchesKind t) := by
  unfold rebuildChildren
  simp only [List.filter_append, filter_nlJoin _ _ hne, List.filter_cons, List.filter_nil,
    matchesKind_gBlock]

/-- `findAllEach` over rule nodes turns into a plain map of child filters. -/
theorem findAllEach_of_rules (t : String) : ∀ (blocks : List Node),
    (∀ b ∈ blocks, ∃ kk dd ccs, b = Node.rule kk dd ccs) →
    findAllEach t blocks = some (blocks.map (fun b => b.kids.filter (matchesKind t))) := by
  intro blocks
  induction blocks with
  | nil => intro _; rfl
  | cons b bs ih =>
    intro h
    obtain ⟨kk, dd, ccs, rfl⟩ := h b (by simp)
    unfold findAllEach
    simp only [findAll, Option.bind_eq_bind, Option.some_bind]
    rw [ih (fun x hx => h x (by simp [hx]))]
    simp [Node.kids]

/-- Every element delivered by `findAllEach` matches the requested kind. -/
theorem findAllEach_mem (t : String) : ∀ (blocks : List Node) (lists : List (List Node)),
    findAllEach t blocks = some lists → ∀ l ∈ lists, ∀ x ∈ l, matchesKind t x = true := by
  intro blocks
  induction blocks with
  | nil =>
    intro lists h
    simp only [findAllEach, Option.some.injEq] at h
    subst h
    simp
  | cons b bs ih =>
    intro lists h l hl x hx
    unfold findAllEach at h
    cases hb : findAll t b with
    | none => rw [hb] at h; simp at h
    | some l0 =>
      rw [hb] at h
      cases hbs : findAllEach t bs with
      | none => rw [hbs] at h; simp at h
      | some ls0 =>
        rw [hbs] at h
        simp only [Option.bind_eq_bind, Option.some_bind, Option.pure_def,
          Option.some.injEq] at h
        subst h
        rcases List.mem_cons.mp hl with hl0 | hl0
        · subst hl0
          cases b with
          | token ty v => simp [findAll] at hb
          | rule kk dd ccs =>
            simp only [findAll, Option.some.injEq] at hb
            subst hb
            exact List.of_mem_filter hx
        · exact ih ls0 hbs l hl0 x hx

/-- Every element of the globals collection matches `global_var_declr`. -/
theorem scriptGlobals_mem {n : Node} {gl : List Node} (h : scriptGlobals n = some gl) :
    ∀ x ∈ gl, matchesKind "global_var_declr" x = true := by
  intro x hx
  unfold scriptGlobals at h
  cases n with
  | token ty v => simp [findAll] at h
  | rule k d cs =>
    simp only [findAll, Option.bind_eq_bind, Option.some_bind] at h
    cases he : findAllEach "global_var_declr" (cs.filter (matchesKind "globals")) with
    | none => rw [he] at h; simp at h
    | some lists =>
      rw [he] at h
      simp only [Option.bind_eq_bind, Option.some_bind, Option.pure_def,
        Option.some.injEq] at h
      subst h
      obtain ⟨l, hl, hxl⟩ := List.mem_flatten.mp hx
      exact findAllEach_mem _ _ lists he l hl x hxl

/-- A list whose members all match a kind is fixed by that filter. -/
theorem filter_all_of {s : String} (l : List Node)
    (hl : ∀ x ∈ l, matchesKind s x = true) : l.filter (matchesKind s) = l :=
  List.filter_eq_self.mpr hl

/-- A list whose members all match one kind filters to nothing under a
different kind. -/
theorem filter_none_of {s t : String} (l : List Node)
    (hl : ∀ x ∈ l, matchesKind s x = true) (hst : s ≠ t) :
    l.filter (matchesKind t) = [] := by
  rw [List.filter_eq_nil_iff]
  intro a ha
  simp [matchesKind_ne (hl a ha) hst]

/-- Reading the four collections back from a rebuilt root recovers the
four lists supplied to the rebuild, provided each list is of its own
collection's kind. -/
theorem getters_rebuilt (k : NodeKind) (d : String) (ts ns gl fs : List Node)
    (hts : ∀ x ∈ ts, matchesKind "type_declr" x = true)
    (hns : ∀ x ∈ ns, matchesKind "native_func_declr" x = true)
    (hgl : ∀ x ∈ gl, matchesKind "global_var_declr" x = true)
    (hfs : ∀ x ∈ fs, matchesKind "func" x = true) :
    scriptTypes (Node.rule k d (rebuildChildren ts ns gl fs)) = some ts
    ∧ scriptNatives (Node.rule k d (rebuildChildren ts ns gl fs)) = some ns
    ∧ scriptGlobals (Node.rule k d (rebuildChildren ts ns gl fs)) = some gl
    ∧ scriptFunctions (Node.rule k d (rebuildChildren ts ns gl fs)) = some fs := by
  refine ⟨?_, ?_, ?_, ?_⟩
  · show some ((rebuildChildren ts ns gl fs).filter (matchesKind "type_declr")) = some ts
    rw [rebuildChildren_filter _ _ _ _ _ (by decide), List.filter_append,
      filter_all_of ts hts, filter_none_of ns hns (by decide),
      filter_none_of fs hfs (by decide)]
    simp
  · show some ((rebuildChildren ts ns gl fs).filter (matchesKind "native_func_declr")) = some ns
    rw [rebuildChildren_filter _ _ _ _ _ (by decide), List.filter_append,
      filter_none_of ts hts (by decide), filter_all_of ns hns,
      filter_none_of fs hfs (by decide)]
    simp
  · unfold scriptGlobals
    have hblocks : findAll "globals" (Node.rule k d (rebuildChildren ts ns gl fs))
        = some [gBlock gl] := by
      show some ((rebuildChildren ts ns gl fs).filter (matchesKind "globals")) = some [gBlock gl]
      rw [rebuildChildren_filter _ _ _ _ _ (by decide), List.filter_append,
        filter_none_of ts hts (by decide), filter_none_of ns hns (by decide),
        filter_none_of fs hfs (by decide)]
      simp
    rw [hblocks]
    simp only [Option.bind_eq_bind, Option.some_bind]
    rw [findAllEach_of_rules _ _ (by
      intro b hb
      simp only [List.mem_singleton] at hb
      subst hb
      exact ⟨.globalK, "globals", _, rfl⟩)]
    simp only [Option.some_bind, Option.pure_def, Option.some.injEq, List.map_cons,
      List.map_nil, List.flatten_cons, List.flatten_nil, List.append_nil]
    unfold gBlock Node.kids
    simp only [List.cons_append, List.nil_append, List.filter_cons, List.filter_append]
    rw [filter_nlJoin _ _ (by decide), filter_all_of gl hgl]
    simp [matchesKind, nlTok]
  · show some ((rebuildChildren ts ns gl fs).filter (matchesKind "func")) = some fs
    rw [rebuildChildren_filter _ _ _ _ _ (by decide), List.filter_append,
      filter_none_of ts hts (by decide), filter_none_of ns hns (by decide),
      filter_all_of fs hfs]
    simp

/-- C6: each of the four setters supplies the new value for its own
collection and the current values, read fresh from the live tree, for the
other three, so reading each of the other three collections after the call
yields exactly the ordered lists they yielded immediately before it. -/
theorem script_setters_frame (k : NodeKind) (d : String) (cs : List Node) (gl0 : List Node)
    (hgl0 : scriptGlobals (Node.rule k d cs) = some gl0) :
    (∀ v root2, (∀ x ∈ v, matchesKind "type_declr" x = true) →
      setTypes (Node.rule k d cs) v = some root2 →
        scriptNatives root2 = scriptNatives (Node.rule k d cs)
        ∧ scriptGlobals root2 = scriptGlobals (Node.rule k d cs)
        ∧ scriptFunctions root2 = scriptFunctions (Node.rule k d cs))
    ∧ (∀ v root2, (∀ x ∈ v, matchesKind "native_func_declr" x = true) →
      setNatives (Node.rule k d cs) v = some root2 →
        scriptTypes root2 = scriptTypes (Node.rule k d cs)
        ∧ scriptGlobals root2 = scriptGlobals (Node.rule k d cs)
        ∧ scriptFunctions root2 = scriptFunctions (Node.rule k d cs))
    ∧ (∀ v root2, (∀ x ∈ v, matchesKind "global_var_declr" x = true) →
      setGlobals (Node.rule k d cs) v = some root2 →
        scriptTypes root2 = scriptTypes (Node.rule k d cs)
        ∧ scriptNatives root2 = scriptNatives (Node.rule k d cs)
        ∧ scriptFunctions root2 = scriptFunctions (Node.rule k d cs))
    ∧ (∀ v root2, (∀ x ∈ v, matchesKind "func" x = true) →
      setFunctions (Node.rule k d cs) v = some root2 →
        scriptTypes root2 = scriptTypes (Node.rule k d cs)
        ∧ scriptNatives root2 = scriptNatives (Node.rule k d cs)
        ∧ scriptGlobals root2 = scriptGlobals (Node.rule k d cs)) := by
  have hts0 : ∀ x ∈ cs.filter (matchesKind "type_declr"), matchesKind "type_declr" x = true :=
    fun x hx => List.of_mem_filter hx
  have hns0 : ∀ x ∈ cs.filter (matchesKind "native_func_declr"),
      matchesKind "native_func_declr" x = true :=
    fun x hx => List.of_mem_filter hx
  have hfs0 : ∀ x ∈ cs.filter (matchesKind "func"), matchesKind "func" x = true :=
    fun x hx => List.of_mem_filter hx
  have hgl0m : ∀ x ∈ gl0, matchesKind "global_var_declr" x = true := scriptGlobals_mem hgl0
  refine ⟨?_, ?_, ?_, ?_⟩
  · intro v root2 hv hset
    unfold setTypes at hset
    rw [hgl0] at hset
    simp only [scriptNatives, scriptFunctions, findAll, rebuildTree, Option.bind_eq_bind,
      Option.some_bind, Option.some.injEq] at hset
    subst hset
    have hG := getters_rebuilt k d v (cs.filter (matchesKind "native_func_declr")) gl0
      (cs.filter (matchesKind "func")) hv hns0 hgl0m hfs0
    exact ⟨hG.2.1, hG.2.2.1.trans hgl0.symm, hG.2.2.2⟩
  · intro v root2 hv hset
    unfold setNatives at hset
    rw [hgl0] at hset
    simp only [scriptTypes, scriptFunctions, findAll, rebuildTree, Option.bind_eq_bind,
      Option.some_bind, Option.some.injEq] at hset
    subst hset
    have hG := getters_rebuilt k d (cs.filter (matchesKind "type_declr")) v gl0
      (cs.filter (matchesKind "func")) hts0 hv hgl0m hfs0
    exact ⟨hG.1, hG.2.2.1.trans hgl0.symm, hG.2.2.2⟩
  · intro v root2 hv hset
    unfold setGlobals at hset
    simp only [scriptTypes, scriptNatives, scriptFunctions, findAll, rebuildTree,
      Option.bind_eq_bind, Option.some_bind, Option.some.injEq] at hset
    subst hset
    have hG := getters_rebuilt k d (cs.filter (matchesKind "type_declr"))
      (cs.filter (matchesKind "native_func_declr")) v
      (cs.filter (matchesKind "func")) hts0 hns0 hv hfs0
    exact ⟨hG.1, hG.2.1, hG.2.2.2⟩
  · intro v root2 hv hset
    unfold setFunctions at hset
    rw [hgl0] at hset
    simp only [scriptTypes, scriptNatives, findAll, rebuildTree, Option.bind_eq_bind,
      Option.some_bind, Option.some.injEq] at hset
    subst hset
    have hG := getters_rebuilt k d (cs.filter (matchesKind "type_declr"))
      (cs.filter (matchesKind "native_func_declr")) gl0 v hts0 hns0 hgl0m hv
    exact ⟨hG.1, hG.2.1, hG.2.2.1.trans hgl0.symm⟩

/-- C3: reading the script root's globals collection concatenates, in
source order, the global-variable declarations of every direct globals
block; after the globals setter runs with a list of global-variable
declaration nodes, the root holds exactly one globals block and reading
the collection back yields precisely the new list. -/
theorem script_globals_spec (k : NodeKind) (d : String) (cs : List Node)
    (v : List Node) (root2 : Node)
    (hblocks : ∀ b ∈ cs.filter (matchesKind "globals"), ∃ kk dd ccs, b = Node.rule kk dd ccs)
    (hv : ∀ x ∈ v, matchesKind "global_var_declr" x = true)
    (hset : setGlobals (Node.rule k d cs) v = some root2) :
    scriptGlobals (Node.rule k d cs)
      = some (((cs.filter (matchesKind "globals")).map
          (fun b => b.kids.filter (matchesKind "global_var_declr"))).flatten)
    ∧ (root2.kids.filter (matchesKind "globals")).length = 1
    ∧ scriptGlobals root2 = some v := by
  have hts0 : ∀ x ∈ cs.filter (matchesKind "type_declr"), matchesKind "type_declr" x = true :=
    fun x hx => List.of_mem_filter hx
  have hns0 : ∀ x ∈ cs.filter (matchesKind "native_func_declr"),
      matchesKind "native_func_declr" x = true :=
    fun x hx => List.of_mem_filter hx
  have hfs0 : ∀ x ∈ cs.filter (matchesKind "func"), matchesKind "func" x = true :=
    fun x hx => List.of_mem_filter hx
  unfold setGlobals at hset
  simp only [scriptTypes, scriptNatives, scriptFunctions, findAll, rebuildTree,
    Option.bind_eq_bind, Option.some_bind, Option.some.injEq] at hset
  subst hset
  refine ⟨?_, ?_, ?_⟩
  · unfold scriptGlobals
    simp only [findAll, Option.bind_eq_bind, Option.some_bind]
    rw [findAllEach_of_rules _ _ hblocks]
    simp
  · show ((rebuildChildren (cs.filter (matchesKind "type_declr"))
      (cs.filter (matchesKind "native_func_declr")) v
      (cs.filter (matchesKind "func"))).filter (matchesKind "globals")).length = 1
    rw [rebuildChildren_filter _ _ _ _ _ (by decide), List.filter_append,
      filter_none_of _ hts0 (by decide), filter_none_of _ hns0 (by decide),
      filter_none_of _ hfs0 (by decide)]
    rfl
  · exact (getters_rebuilt k d (cs.filter (matchesKind "type_declr"))
      (cs.filter (matchesKind "native_func_declr")) v
      (cs.filter (matchesKind "func")) hts0 hns0 hv hfs0).2.2.1

/-- A left part of an append, looked up inside its bounds. -/
theorem getElem?_append_lt {l r : List Node} {n : Nat} (h : n < l.length) :
    (l ++ r)[n]? = l[n]? := by
  rw [List.getElem?_append, if_pos h]

/-- A right part of an append, looked up past the left part. -/
theorem getElem?_append_ge {l r : List Node} {n : Nat} (h : l.length ≤ n) :
    (l ++ r)[n]? = r[n - l.length]? := by
  rw [List.getElem?_append, if_neg (by omega)]

/-- The newline interleaving doubles the length. -/
theorem nlJoin_length (l : List Node) : (nlJoin l).length = 2 * l.length := by
  induction l with
  | nil => rfl
  | cons x l ih =>
    simp only [nlJoin, List.flatMap_cons, List.cons_append, List.nil_append,
      List.length_cons] at ih ⊢
    omega

/-- Even positions of the newline interleaving carry the original nodes. -/
theorem nlJoin_getElem_even : ∀ (l : List Node) (j : Nat), j < l.length →
    (nlJoin l)[2 * j]? = l[j]? := by
  intro l
  induction l with
  | nil => intro j h; simp at h
  | cons x l ih =>
    intro j h
    cases j with
    | zero => simp [nlJoin, List.flatMap_cons]
    | succ j =>
      have harith : 2 * (j + 1) = 2 * j + 1 + 1 := by omega
      rw [harith]
      simp only [nlJoin, List.flatMap_cons, List.cons_append, List.nil_append,
        List.getElem?_cons_succ] at ih ⊢
      exact ih j (by simp at h; omega)

/-- Odd positions of the newline interleaving carry newline tokens. -/
theorem nlJoin_getElem_odd : ∀ (l : List Node) (j : Nat), j < l.length →
    (nlJoin l)[2 * j + 1]? = some nlTok := by
  intro l
  induction l with
  | nil => intro j h; simp at h
  | cons x l ih =>
    intro j h
    cases j with
    | zero => simp [nlJoin, List.flatMap_cons]
    | succ j =>
      have harith : 2 * (j + 1) + 1 = 2 * j + 1 + 1 + 1 := by omega
      rw [harith]
      simp only [nlJoin, List.flatMap_cons, List.cons_append, List.nil_append,
        List.getElem?_cons_succ] at ih ⊢
      exact ih j (by simp at h; omega)

/-- The head of the newline interleaving is the head of the list. -/
theorem nlJoin_head (l : List Node) : (nlJoin l)[0]? = l.head? := by
  cases l <;> rfl

/-- C10: the rebuilt root's children place every type and native
declaration at even positions each followed by a newline token, then the
single synthesized globals block, then the functions each followed by a
newline; the globals block's last child is the `endglobals` token, inside
it each declaration is followed by a newline, and the child directly after
the block is the first function itself — no separator stands between
them (and nothing at all follows the block when there are no functions). -/
theorem rebuild_spacing (n : Node) (k : NodeKind) (d : String) (cs ts ns gl fs : List Node)
    (hn : n = Node.rule k d cs) :
    rebuildTree n ts ns gl fs = some (Node.rule k d (rebuildChildren ts ns gl fs))
    ∧ ((gBlock gl).kids).getLast? = some (Node.token "ENDGLOBALS" "endglobals")
    ∧ (rebuildChildren ts ns gl fs)[2 * (ts ++ ns).length]? = some (gBlock gl)
    ∧ (rebuildChildren ts ns gl fs)[2 * (ts ++ ns).length + 1]? = fs.head?
    ∧ (∀ j, j < (ts ++ ns).length →
        (rebuildChildren ts ns gl fs)[2 * j]? = (ts ++ ns)[j]?
        ∧ (rebuildChildren ts ns gl fs)[2 * j + 1]? = some nlTok)
    ∧ (∀ j, j < fs.length →
        (rebuildChildren ts ns gl fs)[2 * (ts ++ ns).length + 1 + 2 * j]? = fs[j]?
        ∧ (rebuildChildren ts ns gl fs)[2 * (ts ++ ns).length + 2 + 2 * j]? = some nlTok)
    ∧ (∀ j, j < gl.length →
        ((gBlock gl).kids)[2 + 2 * j]? = gl[j]?
        ∧ ((gBlock gl).kids)[3 + 2 * j]? = some nlTok) := by
  subst hn
  have hT : (nlJoin (ts ++ ns)).length = 2 * (ts ++ ns).length := nlJoin_length _
  have hTg : (nlJoin (ts ++ ns) ++ [gBlock gl]).length = 2 * (ts ++ ns).length + 1 := by
    rw [List.length_append, hT]
    rfl
  refine ⟨rfl, ?_, ?_, ?_, ?_, ?_, ?_⟩
  · show ((([Node.token "GLOBALS" "globals", nlTok] ++ nlJoin gl)
        ++ [Node.token "ENDGLOBALS" "endglobals"]).getLast?)
      = some (Node.token "ENDGLOBALS" "endglobals")
    exact List.getLast?_concat _
  · show ((nlJoin (ts ++ ns) ++ [gBlock gl]) ++ nlJoin fs)[2 * (ts ++ ns).length]?
      = some (gBlock gl)
    have h1 : ((nlJoin (ts ++ ns) ++ [gBlock gl]) ++ nlJoin fs)[2 * (ts ++ ns).length]?
        = (nlJoin (ts ++ ns) ++ [gBlock gl])[2 * (ts ++ ns).length]? :=
      getElem?_append_lt (by rw [hTg]; omega)
    have h2 : (nlJoin (ts ++ ns) ++ [gBlock gl])[2 * (ts ++ ns).length]?
        = ([gBlock gl] : List Node)[2 * (ts ++ ns).length - (nlJoin (ts ++ ns)).length]? :=
      getElem?_append_ge (by rw [hT])
    have h3 : 2 * (ts ++ ns).length - (nlJoin (ts ++ ns)).length = 0 := by
      rw [hT]
      omega
    rw [h1, h2, h3]
    rfl
  · show ((nlJoin (ts ++ ns) ++ [gBlock gl]) ++ nlJoin fs)[2 * (ts ++ ns).length + 1]?
      = fs.head?
    have h1 : ((nlJoin (ts ++ ns) ++ [gBlock gl]) ++ nlJoin fs)[2 * (ts ++ ns).length + 1]?
        = (nlJoin fs)[2 * (ts ++ ns).length + 1
            - (nlJoin (ts ++ ns) ++ [gBlock gl]).length]? :=
      getElem?_append_ge (by rw [hTg])
    have h2 : 2 * (ts ++ ns).length + 1 - (nlJoin (ts ++ ns) ++ [gBlock gl]).length = 0 := by
      rw [hTg]
      omega
    rw [h1, h2]
    exact nlJoin_head fs
  · intro j hj
    have hlt : 2 * j + 1 < (nlJoin (ts ++ ns) ++ [gBlock gl]).length := by
      rw [hTg]
      omega
    constructor
    · have h1 : ((nlJoin (ts ++ ns) ++ [gBlock gl]) ++ nlJoin fs)[2 * j]?
          = (nlJoin (ts ++ ns) ++ [gBlock gl])[2 * j]? :=
        getElem?_append_lt (by rw [hTg]; omega)
      have h2 : (nlJoin (ts ++ ns) ++ [gBlock gl])[2 * j]?
          = (nlJoin (ts ++ ns))[2 * j]? :=
        getElem?_append_lt (by rw [hT]; omega)
      show ((nlJoin (ts ++ ns) ++ [gBlock gl]) ++ nlJoin fs)[2 * j]? = (ts ++ ns)[j]?
      rw [h1, h2]
      exact nlJoin_getElem_even _ j hj
    · have h1 : ((nlJoin (ts ++ ns) ++ [gBlock gl]) ++ nlJoin fs)[2 * j + 1]?
          = (nlJoin (ts ++ ns) ++ [gBlock gl])[2 * j + 1]? :=
        getElem?_append_lt (by rw [hTg]; omega)
      have h2 : (nlJoin (ts ++ ns) ++ [gBlock gl])[2 * j + 1]?
          = (nlJoin (ts ++ ns))[2 * j + 1]? :=
        getElem?_append_lt (by rw [hT]; omega)
      show ((nlJoin (ts ++ ns) ++ [gBlock gl]) ++ nlJoin fs)[2 * j + 1]? = some nlTok
      rw [h1, h2]
      exact nlJoin_getElem_odd _ j hj
  · intro j hj
    constructor
    · have h1 : ((nlJoin (ts ++ ns) ++ [gBlock gl]) ++ nlJoin fs)[2 * (ts ++ ns).length + 1 + 2 * j]?
          = (nlJoin fs)[2 * (ts ++ ns).length + 1 + 2 * j
              - (nlJoin (ts ++ ns) ++ [gBlock gl]).length]? :=
        getElem?_append_ge (by rw [hTg]; omega)
      have h2 : 2 * (ts ++ ns).length + 1 + 2 * j
          - (nlJoin (ts ++ ns) ++ [gBlock gl]).length = 2 * j := by
        rw [hTg]
        omega
      show ((nlJoin (ts ++ ns) ++ [gBlock gl]) ++ nlJoin fs)[2 * (ts ++ ns).length + 1 + 2 * j]?
        = fs[j]?
      rw [h1, h2]
      exact nlJoin_getElem_even _ j hj
    · have h1 : ((nlJoin (ts ++ ns) ++ [gBlock gl]) ++ nlJoin fs)[2 * (ts ++ ns).length + 2 + 2 * j]?
          = (nlJoin fs)[2 * (ts ++ ns).length + 2 + 2 * j
              - (nlJoin (ts ++ ns) ++ [gBlock gl]).length]? :=
        getElem?_append_ge (by rw [hTg]; omega)
      have h2 : 2 * (ts ++ ns).length + 2 + 2 * j
          - (nlJoin (ts ++ ns) ++ [gBlock gl]).length = 2 * j + 1 := by
        rw [hTg]
        omega
      show ((nlJoin (ts ++ ns) ++ [gBlock gl]) ++ nlJoin fs)[2 * (ts ++ ns).length + 2 + 2 * j]?
        = some nlTok
      rw [h1, h2]
      exact nlJoin_getElem_odd _ j hj
  · intro j hj
    have hA2 : (([Node.token "GLOBALS" "globals", nlTok] : List Node)).length = 2 := rfl
    constructor
    · show (([Node.token "GLOBALS" "globals", nlTok] ++ nlJoin gl
          ++ [Node.token "ENDGLOBALS" "endglobals"]))[2 + 2 * j]? = gl[j]?
      rw [List.append_assoc]
      have h1 : (([Node.token "GLOBALS" "globals", nlTok] : List Node)
            ++ (nlJoin gl ++ [Node.token "ENDGLOBALS" "endglobals"]))[2 + 2 * j]?
          = (nlJoin gl ++ [Node.token "ENDGLOBALS" "endglobals"])[2 + 2 * j - 2]? :=
        getElem?_append_ge (by rw [hA2]; omega)
      have h2 : 2 + 2 * j - 2 = 2 * j := by omega
      have h3 : (nlJoin gl ++ [Node.token "ENDGLOBALS" "endglobals"])[2 * j]?
          = (nlJoin gl)[2 * j]? :=
        getElem?_append_lt (by rw [nlJoin_length]; omega)
      rw [h1, h2, h3]
      exact nlJoin_getElem_even _ j hj
    · show (([Node.token "GLOBALS" "globals", nlTok] ++ nlJoin gl
          ++ [Node.token "ENDGLOBALS" "endglobals"]))[3 + 2 * j]? = some nlTok
      rw [List.append_assoc]
      have h1 : (([Node.token "GLOBALS" "globals", nlTok] : List Node)
            ++ (nlJoin gl ++ [Node.token "ENDGLOBALS" "endglobals"]))[3 + 2 * j]?
          = (nlJoin gl ++ [Node.token "ENDGLOBALS" "endglobals"])[3 + 2 * j - 2]? :=
        getElem?_append_ge (by rw [hA2]; omega)
      have h2 : 3 + 2 * j - 2 = 2 * j + 1 := by omega
      have h3 : (nlJoin gl ++ [Node.token "ENDGLOBALS" "endglobals"])[2 * j + 1]?
          = (nlJoin gl)[2 * j + 1]? :=
        getElem?_append_lt (by rw [nlJoin_length]; omega)
      rw [h1, h2, h3]
      exact nlJoin_getElem_odd _ j hj

/-! ## Typed-view construction (claim C4) -/

mutual

/-- Every tree the rewrite pass produces is view-consistent: each rule
node's class tag is exactly the one assigned to its rule name. -/
theorem transform_viewOK : ∀ n : Node, viewOK (mapperTransform n) = true
  | .token t v => by simp [mapperTransform, viewOK]
  | .rule k d cs => by
    simp [mapperTransform, viewOK, transformList_viewOKList cs]

/-- View-consistency of the rewrite pass on sibling lists. -/
theorem transformList_viewOKList : ∀ l : List Node, viewOKList (mapperTransformList l) = true
  | [] => by simp [mapperTransformList, viewOKList]
  | x :: xs => by
    simp [mapperTransformList, viewOKList, transform_viewOK x, transformList_viewOKList xs]

end

/-- C4 (amended): the rewrite pass produces typed views tagged exactly by
rule name (every tree it returns is view-consistent), but it is not the
only construction site of typed views: the rebuild operation — hence
every script-root setter — constructs the synthesized globals block as a
GlobalTree typed-view instance carrying the rule name `globals`, a
combination the rewrite pass never produces. -/
theorem typed_view_construction :
    (∀ n : Node, viewOK (mapperTransform n) = true)
    ∧ (∀ gl : List Node, isTypedView (gBlock gl) = true ∧ viewOK (gBlock gl) = false)
    ∧ (∀ (k : NodeKind) (d : String) (cs ts ns gl fs : List Node),
        rebuildTree (Node.rule k d cs) ts ns gl fs
          = some (Node.rule k d (nlJoin (ts ++ ns) ++ [gBlock gl] ++ nlJoin fs))) := by
  refine ⟨transform_viewOK, ?_, ?_⟩
  · intro gl
    constructor
    · rfl
    · have hk : kindFor "globals" = .base := rfl
      have : viewOK (gBlock gl)
          = ((NodeKind.globalK == kindFor "globals")
              && viewOKList ([Node.token "GLOBALS" "globals", nlTok]
                  ++ nlJoin gl ++ [Node.token "ENDGLOBALS" "endglobals"])) := by
        rfl
      rw [this, hk]
      rfl
  · intro k d cs ts ns gl fs
    rfl

/-- C4 (counterexample): a freshly transformed empty script is
view-consistent, but after a single globals-setter call the root holds a
typed-view node (the globals block, built as a GlobalTree instance) that
the rewrite pass could never have produced, so the tree is no longer
view-consistent — the pass is not the only way typed views come into
existence. -/
theorem c4_counterexample :
    viewOK (mapperTransform (Node.rule .base "start" [])) = true
    ∧ setGlobals (mapperTransform (Node.rule .base "start" [])) []
        = some (Node.rule .scriptK "start" [gBlock []])
    ∧ isTypedView (gBlock []) = true
    ∧ viewOK (Node.rule .scriptK "start" [gBlock []]) = false := by
  refine ⟨rfl, rfl, rfl, rfl⟩

/-- C3 (witness): on the concrete script with two separate globals blocks,
reading concatenates both blocks' declarations; after setting globals to
`[globalDeclB]` exactly one block remains and reading yields that list. -/
theorem c3_witness :
    scriptGlobals scriptSample
      = some (((scriptSampleKids.filter (matchesKind "globals")).map
          (fun b => b.kids.filter (matchesKind "global_var_declr"))).flatten)
    ∧ (scriptSampleSetG.kids.filter (matchesKind "globals")).length = 1
    ∧ scriptGlobals scriptSampleSetG = some [globalDeclB] :=
  script_globals_spec .scriptK "start" scriptSampleKids [globalDeclB] scriptSampleSetG
    (by
      intro b hb
      have hfe : scriptSampleKids.filter (matchesKind "globals")
          = [globalsBlockA, globalsBlockB] := by decide
      rw [hfe] at hb
      simp only [List.mem_cons, List.not_mem_nil, or_false] at hb
      rcases hb with rfl | rfl
      · exact ⟨.base, "globals", _, rfl⟩
      · exact ⟨.base, "globals", _, rfl⟩)
    (by decide)
    (by decide)

/-- C6 (witness): after the natives setter runs on the concrete script,
the other three collections read back unchanged. -/
theorem c6_witness :
    scriptTypes scriptSampleSetN = scriptTypes scriptSample
    ∧ scriptGlobals scriptSampleSetN = scriptGlobals scriptSample
    ∧ scriptFunctions scriptSampleSetN = scriptFunctions scriptSample :=
  (script_setters_frame .scriptK "start" scriptSampleKids [globalDeclA, globalDeclB]
      (by decide)).2.1
    [nativeSample] scriptSampleSetN (by decide) (by decide)

/-- C10 (witness): the spacing facts instantiated on concrete collections:
the globals block sits right after the interleaved type and native
declarations, the first function follows it with no separator, and each
declaration is followed by a newline. -/
theorem c10_witness :
    rebuildTree scriptSample [typeSample] [nativeSample] [globalDeclA] [funcSample]
      = some (Node.rule .scriptK "start"
          (rebuildChildren [typeSample] [nativeSample] [globalDeclA] [funcSample]))
    ∧ ((gBlock [globalDeclA]).kids).getLast? = some (Node.token "ENDGLOBALS" "endglobals")
    ∧ (rebuildChildren [typeSample] [nativeSample] [globalDeclA]
        [funcSample])[2 * ([typeSample] ++ [nativeSample]).length]?
        = some (gBlock [globalDeclA])
    ∧ (rebuildChildren [typeSample] [nativeSample] [globalDeclA]
        [funcSample])[2 * ([typeSample] ++ [nativeSample]).length + 1]?
        = [funcSample].head?
    ∧ ((rebuildChildren [typeSample] [nativeSample] [globalDeclA] [funcSample])[2 * 0]?
        = ([typeSample] ++ [nativeSample])[0]?
      ∧ (rebuildChildren [typeSample] [nativeSample] [globalDeclA] [funcSample])[2 * 0 + 1]?
        = some nlTok)
    ∧ ((rebuildChildren [typeSample] [nativeSample] [globalDeclA]
          [funcSample])[2 * ([typeSample] ++ [nativeSample]).length + 1 + 2 * 0]?
        = [funcSample][0]?
      ∧ (rebuildChildren [typeSample] [nativeSample] [globalDeclA]
          [funcSample])[2 * ([typeSample] ++ [nativeSample]).length + 2 + 2 * 0]?
        = some nlTok)
    ∧ (((gBlock [globalDeclA]).kids)[2 + 2 * 0]? = [globalDeclA][0]?
      ∧ ((gBlock [globalDeclA]).kids)[3 + 2 * 0]? = some nlTok) := by
  have h := rebuild_spacing scriptSample .scriptK "start" scriptSampleKids
    [typeSample] [nativeSample] [globalDeclA] [funcSample] rfl
  exact ⟨h.1, h.2.1, h.2.2.1, h.2.2.2.1, h.2.2.2.2.1 0 (by decide),
    h.2.2.2.2.2.1 0 (by decide), h.2.2.2.2.2.2 0 (by decide)⟩
